import Mathlib

/-!
Verification development for the segment-prefetch core
(`shaka.media.SegmentPrefetch` and `shaka.media.SegmentPrefetchOperation`).

The embedding is shallow:

* JS `Map` objects (keyed by object identity, preserving insertion order)
  become association lists; object identity becomes structural equality of
  reference records that carry an `id` field standing for the object address,
  so distinct objects are modelled by records with distinct `id`s.
* Times (JS numbers) become `Rat`; all operations on them in this core are
  order comparisons and `max`, which agree with the rational order.
* The fetch dispatcher and the consumer callback are opaque capabilities;
  they are modelled by `Nat` tokens.  The pending-request handle returned by
  a dispatch is modelled by a `Nat` drawn from a ghost fresh counter.
* `goog.asserts.assert` failures abort the call before any mutation; methods
  whose body starts with an assert therefore return `Except Unit _`, with
  `Except.error ()` modelling the assertion throw.
* Two ghost fields (`scannedLog`, `abortLog`) record, for verification only,
  which references the prefetch walk has examined and which entries have
  been aborted, in order.  They influence no behaviour.
-/

namespace Shaka

/-- An init-segment reference (`shaka.media.InitSegmentReference`): an opaque
identity.  The `id` field stands for the JS object identity. -/
structure InitSegmentReference where
  id : Nat
deriving DecidableEq

/-- Status of a segment reference (`shaka.media.SegmentReference.Status`).
Only `MISSING` is distinguished by the prefetch core. -/
inductive SegmentStatus where
  | available
  | missing
deriving DecidableEq

/-- A media-segment reference (`shaka.media.SegmentReference`).  Fields mirror
the accessors the prefetch core uses: `startTime`, `endTime`, `getStatus()`,
`isPartial()`, `isLastPartial()`, `isPreload()`, `endByte` and the back-link
`initSegmentReference`.  The `id` field stands for the JS object identity. -/
structure SegmentReference where
  id : Nat
  startTime : Rat
  endTime : Rat
  status : SegmentStatus
  isPartial : Bool
  isLastPartial : Bool
  isPreload : Bool
  endByte : Option Nat
  initSegmentReference : Option InitSegmentReference
deriving DecidableEq

/-- A stream (`shaka.extern.Stream`), restricted to the fields the prefetch
core reads: `id`, `type` (here `stype`, since `type` is reserved),
`fastSwitching` and `segmentIndex`.  Modelled from the spec: the segment
index of a stream is its full time-ordered list of segment references (the
`SegmentIndex` collaborator is not part of this repository). -/
structure Stream where
  id : Nat
  stype : Nat
  fastSwitching : Bool
  segmentIndex : Option (List SegmentReference)
deriving DecidableEq

/-- One prefetch operation (`shaka.media.SegmentPrefetchOperation`): the
dispatcher capability it was created with, the optional consumer callback,
the pending-request handle returned by the dispatch (none before dispatch),
and the byte accumulator of the chunk handler (a closure variable in the
source; one `dispatchFetch` happens per instance, so it is carried here). -/
structure SegmentPrefetchOperation where
  fetchDispatcher_ : Nat
  streamDataCallback_ : Option Nat
  operation_ : Option Nat
  buffered : List Nat
deriving DecidableEq

/-- `SegmentPrefetchOperation.replaceFetchDispatcher`: update the dispatcher
used for future dispatches on this instance. -/
def SegmentPrefetchOperation.replaceFetchDispatcher
    (op : SegmentPrefetchOperation) (fetchDispatcher : Nat) :
    SegmentPrefetchOperation :=
  { op with fetchDispatcher_ := fetchDispatcher }

/-- `SegmentPrefetchOperation.setStreamDataCallback`: attach or replace the
consumer callback.  The source body is the single assignment
`this.streamDataCallback_ = streamDataCallback`. -/
def SegmentPrefetchOperation.setStreamDataCallback
    (op : SegmentPrefetchOperation) (streamDataCallback : Option Nat) :
    SegmentPrefetchOperation :=
  { op with streamDataCallback_ := streamDataCallback }

/-- `SegmentPrefetchOperation.getOperation`: the pending-request handle. -/
def SegmentPrefetchOperation.getOperation (op : SegmentPrefetchOperation) :
    Option Nat :=
  op.operation_

/-- The chunk handler `async (data) => {...}` installed by
`SegmentPrefetchOperation.dispatchFetch`: append the chunk to the
accumulator (or start it), then, if a consumer callback is attached, deliver
the whole accumulator to it and clear it.  The second component is the
payload passed to `streamDataCallback_`, `none` when no delivery happens. -/
def SegmentPrefetchOperation.receiveChunk
    (op : SegmentPrefetchOperation) (data : List Nat) :
    SegmentPrefetchOperation × Option (List Nat) :=
  let buffered := if 0 < op.buffered.length then op.buffered ++ data else data
  match op.streamDataCallback_ with
  | some _ => ({ op with buffered := [] }, some buffered)
  | none => ({ op with buffered := buffered }, none)

/-- Lookup in an identity-keyed JS `Map` modelled as an association list
(first match; real maps have unique keys). -/
def mapGet {α β : Type} [DecidableEq α] : List (α × β) → α → Option β
  | [], _ => none
  | p :: rest, k => if p.1 = k then some p.2 else mapGet rest k

/-- `Map.has`. -/
def mapHas {α β : Type} [DecidableEq α] (m : List (α × β)) (k : α) : Bool :=
  (mapGet m k).isSome

/-- `Map.set`: replace in place when the key is present (insertion order is
kept), append at the end otherwise. -/
def mapSet {α β : Type} [DecidableEq α] : List (α × β) → α → β → List (α × β)
  | [], k, v => [(k, v)]
  | p :: rest, k, v => if p.1 = k then (k, v) :: rest else p :: mapSet rest k v

/-- `Map.delete`: remove the entry with the given key. -/
def mapDelete {α β : Type} [DecidableEq α] : List (α × β) → α → List (α × β)
  | [], _ => []
  | p :: rest, k => if p.1 = k then mapDelete rest k else p :: mapDelete rest k

/-- Decidable equality of `Except` results, for evaluating the model on
concrete inputs. -/
instance {ε α : Type} [DecidableEq ε] [DecidableEq α] :
    DecidableEq (Except ε α) := fun x y =>
  match x, y with
  | Except.ok a, Except.ok b =>
    if h : a = b then isTrue (by rw [h])
    else isFalse (by intro hc; injection hc; contradiction)
  | Except.error a, Except.error b =>
    if h : a = b then isTrue (by rw [h])
    else isFalse (by intro hc; injection hc; contradiction)
  | Except.ok _, Except.error _ => isFalse (by intro hc; cases hc)
  | Except.error _, Except.ok _ => isFalse (by intro hc; cases hc)

/-- A key of either table, as passed to `abortPrefetchedSegment_` and
`getPrefetchedSegment` (the source distinguishes the two kinds with
`instanceof shaka.media.InitSegmentReference`). -/
abbrev PrefetchKey := SegmentReference ⊕ InitSegmentReference

/-- The state of one `shaka.media.SegmentPrefetch` instance.  Fields with a
trailing underscore mirror the source's private fields.  `nextRequestId`,
`scannedLog` and `abortLog` are ghost instrumentation (see the file
header). -/
structure SegmentPrefetch where
  prefetchLimit_ : Int
  stream_ : Stream
  prefetchPosTime_ : Rat
  fetchDispatcher_ : Nat
  deleteOnGet_ : Bool
  segmentPrefetchMap_ : List (SegmentReference × SegmentPrefetchOperation)
  initSegmentPrefetchMap_ : List (InitSegmentReference × SegmentPrefetchOperation)
  nextRequestId : Nat
  scannedLog : List SegmentReference
  abortLog : List PrefetchKey
deriving DecidableEq

/-- The `SegmentPrefetch` constructor. -/
def SegmentPrefetch.init (prefetchLimit : Int) (stream : Stream)
    (fetchDispatcher : Nat) (deleteOnGet : Bool) : SegmentPrefetch :=
  { prefetchLimit_ := prefetchLimit
    stream_ := stream
    prefetchPosTime_ := 0
    fetchDispatcher_ := fetchDispatcher
    deleteOnGet_ := deleteOnGet
    segmentPrefetchMap_ := []
    initSegmentPrefetchMap_ := []
    nextRequestId := 0
    scannedLog := []
    abortLog := [] }

/-- `SegmentPrefetch.replaceFetchDispatcher`: store the new dispatcher and
propagate it to every operation held in `segmentPrefetchMap_` (the source
loops over that map's values only). -/
def SegmentPrefetch.replaceFetchDispatcher (st : SegmentPrefetch)
    (fetchDispatcher : Nat) : SegmentPrefetch :=
  { st with
    fetchDispatcher_ := fetchDispatcher
    segmentPrefetchMap_ := st.segmentPrefetchMap_.map
      (fun p => (p.1, SegmentPrefetchOperation.replaceFetchDispatcher p.2 fetchDispatcher)) }

/-- `SegmentPrefetch.getLastKnownPosition`. -/
def SegmentPrefetch.getLastKnownPosition (st : SegmentPrefetch) : Rat :=
  st.prefetchPosTime_

/-- `SegmentPrefetch.getStream`. -/
def SegmentPrefetch.getStream (st : SegmentPrefetch) : Stream :=
  st.stream_

/-- `SegmentPrefetch.abortPrefetchedSegment_`: pick the table matching the
reference's kind, look the operation up, delete the entry, and if an
operation was found abort it (recorded in the ghost `abortLog`). -/
def SegmentPrefetch.abortPrefetchedSegment_ (st : SegmentPrefetch)
    (reference : PrefetchKey) : SegmentPrefetch :=
  match reference with
  | Sum.inl r =>
    let found := mapGet st.segmentPrefetchMap_ r
    let st1 := { st with segmentPrefetchMap_ := mapDelete st.segmentPrefetchMap_ r }
    match found with
    | some _ => { st1 with abortLog := st1.abortLog ++ [Sum.inl r] }
    | none => st1
  | Sum.inr ir =>
    let found := mapGet st.initSegmentPrefetchMap_ ir
    let st1 := { st with initSegmentPrefetchMap_ := mapDelete st.initSegmentPrefetchMap_ ir }
    match found with
    | some _ => { st1 with abortLog := st1.abortLog ++ [Sum.inr ir] }
    | none => st1

/-- The operation record produced by
`new SegmentPrefetchOperation(this.fetchDispatcher_)` followed by
`dispatchFetch`: it stores the current dispatcher, has no consumer attached,
holds the fresh pending-request handle returned by the dispatch (a ghost
id), and starts with an empty accumulator. -/
def SegmentPrefetch.newDispatchedOperation (st : SegmentPrefetch) :
    SegmentPrefetchOperation :=
  { fetchDispatcher_ := st.fetchDispatcher_
    streamDataCallback_ := none
    operation_ := some st.nextRequestId
    buffered := [] }

/-- `SegmentPrefetch.prefetchInitSegment`: assert `prefetchLimit_ > 0`
(`Except.error` models the assertion throw); no-op when the stream has no
segment index; otherwise, if the init reference is not already in the
init-segment table, create an operation, dispatch it (the handle is a fresh
ghost id) and store it.  Init segments are exempt from the prefetch limit. -/
def SegmentPrefetch.prefetchInitSegment (st : SegmentPrefetch)
    (initSegmentReference : InitSegmentReference) : Except Unit SegmentPrefetch :=
  if 0 < st.prefetchLimit_ then
    match st.stream_.segmentIndex with
    | none => Except.ok st
    | some _ =>
      Except.ok <|
        if mapHas st.initSegmentPrefetchMap_ initSegmentReference then st
        else
          let segmentPrefetchOperation := SegmentPrefetch.newDispatchedOperation st
          { st with
            initSegmentPrefetchMap_ :=
              mapSet st.initSegmentPrefetchMap_ initSegmentReference segmentPrefetchOperation
            nextRequestId := st.nextRequestId + 1 }
  else Except.error ()

/-- The body of `new SegmentPrefetchOperation(this.fetchDispatcher_)` followed
by `dispatchFetch(reference, this.stream_)` and
`segmentPrefetchMap_.set(reference, ...)` inside the prefetch walk. -/
def SegmentPrefetch.dispatchSegment (st : SegmentPrefetch)
    (reference : SegmentReference) : SegmentPrefetch :=
  let segmentPrefetchOperation := SegmentPrefetch.newDispatchedOperation st
  { st with
    segmentPrefetchMap_ := mapSet st.segmentPrefetchMap_ reference segmentPrefetchOperation
    nextRequestId := st.nextRequestId + 1 }

/-- Eligibility of a reference in the prefetch walk: not a preload reference
with a byte-range end marker, and not `MISSING` (the two `prefetchAllowed`
tests of the source). -/
def prefetchAllowed (reference : SegmentReference) : Bool :=
  (!(reference.isPreload && reference.endByte.isSome)) &&
    (!(decide (reference.status = SegmentStatus.missing)))

/-- The body of one iteration of the `while` loop of
`prefetchSegmentsByTime`: prefetch the init segment of an eligible
reference, dispatch the reference when eligible and not already present,
and advance `prefetchPosTime_` to its `startTime` (recording the
reference in the ghost `scannedLog`). -/
def SegmentPrefetch.prefetchStep (st : SegmentPrefetch)
    (reference : SegmentReference) : Except Unit SegmentPrefetch :=
  let step1 : Except Unit SegmentPrefetch :=
    if prefetchAllowed reference then
      match reference.initSegmentReference with
      | some iref => SegmentPrefetch.prefetchInitSegment st iref
      | none => Except.ok st
    else Except.ok st
  match step1 with
  | Except.error e => Except.error e
  | Except.ok st1 =>
    let st2 :=
      if prefetchAllowed reference && !(mapHas st1.segmentPrefetchMap_ reference) then
        SegmentPrefetch.dispatchSegment st1 reference
      else st1
    Except.ok { st2 with
      prefetchPosTime_ := reference.startTime
      scannedLog := st2.scannedLog ++ [reference] }

/-- The `while` loop of `prefetchSegmentsByTime`, on the remaining iterator
output: stop when the media table has reached the limit; otherwise run the
body (`prefetchStep`) and stop early on a last-partial reference of a
fast-switching stream. -/
def SegmentPrefetch.prefetchLoop :
    SegmentPrefetch → List SegmentReference → Except Unit SegmentPrefetch
  | st, [] => Except.ok st
  | st, reference :: rest =>
    if (st.segmentPrefetchMap_.length : Int) < st.prefetchLimit_ then
      match SegmentPrefetch.prefetchStep st reference with
      | Except.error e => Except.error e
      | Except.ok st3 =>
        if st3.stream_.fastSwitching && SegmentReference.isPartial reference &&
            SegmentReference.isLastPartial reference then
          Except.ok st3
        else SegmentPrefetch.prefetchLoop st3 rest
    else Except.ok st

/-- Modelled from the spec: `SegmentIndex.getIteratorForTime(time)` yields the
index's time-ordered references starting at or after the given time (the
`SegmentIndex` collaborator is external to this repository; the source's
null-iterator early return coincides with the empty sequence here). -/
def getIteratorForTime (time : Rat) (refs : List SegmentReference) :
    List SegmentReference :=
  refs.dropWhile (fun r => decide (r.startTime < time))

/-- `SegmentPrefetch.clearInitSegments_` iteration over the init-table keys:
abort every init entry no media-table reference points at. -/
def SegmentPrefetch.clearInitLoop (segmentReferences : List SegmentReference) :
    SegmentPrefetch → List InitSegmentReference → SegmentPrefetch
  | st, [] => st
  | st, initSegmentReference :: rest =>
    let st1 :=
      if !(segmentReferences.any
          (fun sr => decide (sr.initSegmentReference = some initSegmentReference))) then
        SegmentPrefetch.abortPrefetchedSegment_ st (Sum.inr initSegmentReference)
      else st
    SegmentPrefetch.clearInitLoop segmentReferences st1 rest

/-- `SegmentPrefetch.clearInitSegments_`: remove and abort every init-segment
entry that is not referenced by the `initSegmentReference` field of any
reference currently in the media-segment table. -/
def SegmentPrefetch.clearInitSegments_ (st : SegmentPrefetch) : SegmentPrefetch :=
  SegmentPrefetch.clearInitLoop (st.segmentPrefetchMap_.map Prod.fst) st
    (st.initSegmentPrefetchMap_.map Prod.fst)

/-- `SegmentPrefetch.prefetchSegmentsByTime`: assert `prefetchLimit_ > 0`;
no-op without a segment index; scan from
`max(currTime, prefetchPosTime_)`; consume one reference (two with
`skipFirst`) and return early when none remains; run the prefetch walk and
finish by pruning orphaned init segments. -/
def SegmentPrefetch.prefetchSegmentsByTime (st : SegmentPrefetch)
    (currTime : Rat) (skipFirst : Bool) : Except Unit SegmentPrefetch :=
  if 0 < st.prefetchLimit_ then
    match st.stream_.segmentIndex with
    | none => Except.ok st
    | some refs =>
      let maxTime := max currTime st.prefetchPosTime_
      let iter := getIteratorForTime maxTime refs
      let remaining := if skipFirst then iter.drop 1 else iter
      match remaining with
      | [] => Except.ok st
      | _ :: _ =>
        match SegmentPrefetch.prefetchLoop st remaining with
        | Except.ok st2 => Except.ok (SegmentPrefetch.clearInitSegments_ st2)
        | Except.error e => Except.error e
  else Except.error ()

/-- `SegmentPrefetch.getPrefetchedSegment`: assert `prefetchLimit_ > 0`; pick
the table matching the reference's kind; on a miss return `none`; on a hit
attach the consumer callback when one was supplied, delete the entry when
`deleteOnGet_` is set, and return the pending-request handle. -/
def SegmentPrefetch.getPrefetchedSegment (st : SegmentPrefetch)
    (reference : PrefetchKey) (streamDataCallback : Option Nat) :
    Except Unit (SegmentPrefetch × Option Nat) :=
  if 0 < st.prefetchLimit_ then
    match reference with
    | Sum.inl r =>
      match mapGet st.segmentPrefetchMap_ r with
      | some segmentPrefetchOperation =>
        let op1 :=
          if streamDataCallback.isSome then
            SegmentPrefetchOperation.setStreamDataCallback segmentPrefetchOperation
              streamDataCallback
          else segmentPrefetchOperation
        let m1 :=
          if streamDataCallback.isSome then mapSet st.segmentPrefetchMap_ r op1
          else st.segmentPrefetchMap_
        let m2 := if st.deleteOnGet_ then mapDelete m1 r else m1
        Except.ok ({ st with segmentPrefetchMap_ := m2 },
          SegmentPrefetchOperation.getOperation op1)
      | none => Except.ok (st, none)
    | Sum.inr ir =>
      match mapGet st.initSegmentPrefetchMap_ ir with
      | some segmentPrefetchOperation =>
        let op1 :=
          if streamDataCallback.isSome then
            SegmentPrefetchOperation.setStreamDataCallback segmentPrefetchOperation
              streamDataCallback
          else segmentPrefetchOperation
        let m1 :=
          if streamDataCallback.isSome then mapSet st.initSegmentPrefetchMap_ ir op1
          else st.initSegmentPrefetchMap_
        let m2 := if st.deleteOnGet_ then mapDelete m1 ir else m1
        Except.ok ({ st with initSegmentPrefetchMap_ := m2 },
          SegmentPrefetchOperation.getOperation op1)
      | none => Except.ok (st, none)
  else Except.error ()

/-- `SegmentPrefetch.clearMap_`: abort every listed key. -/
def SegmentPrefetch.clearMap_ :
    SegmentPrefetch → List PrefetchKey → SegmentPrefetch
  | st, [] => st
  | st, reference :: rest =>
    SegmentPrefetch.clearMap_ (SegmentPrefetch.abortPrefetchedSegment_ st reference) rest

/-- `SegmentPrefetch.clearAll`: abort and remove every entry of both tables
and reset `prefetchPosTime_` to zero (the ghost scan log is reset with
it). -/
def SegmentPrefetch.clearAll (st : SegmentPrefetch) : SegmentPrefetch :=
  let st1 := SegmentPrefetch.clearMap_ st
    (st.segmentPrefetchMap_.map (fun p => Sum.inl p.1))
  let st2 := SegmentPrefetch.clearMap_ st1
    (st1.initSegmentPrefetchMap_.map (fun p => Sum.inr p.1))
  { st2 with prefetchPosTime_ := 0, scannedLog := [] }

/-- `SegmentPrefetch.evict` iteration over the media-table keys: abort every
entry the playhead has fully passed (`time > endTime`). -/
def SegmentPrefetch.evictLoop (time : Rat) :
    SegmentPrefetch → List SegmentReference → SegmentPrefetch
  | st, [] => st
  | st, ref :: rest =>
    let st1 :=
      if time > ref.endTime then SegmentPrefetch.abortPrefetchedSegment_ st (Sum.inl ref)
      else st
    SegmentPrefetch.evictLoop time st1 rest

/-- `SegmentPrefetch.evict`: abort and remove every media entry with
`endTime < time`, then prune orphaned init segments. -/
def SegmentPrefetch.evict (st : SegmentPrefetch) (time : Rat) : SegmentPrefetch :=
  SegmentPrefetch.clearInitSegments_
    (SegmentPrefetch.evictLoop time st (st.segmentPrefetchMap_.map Prod.fst))

/-- The `while (keyArr.length > newLimit)` pop loop of `resetLimit`, consuming
the copied key array from its end (the list argument is the key array
reversed, so the head is the most recently inserted key).  The source's
infinite loop on a negative limit is unreachable behind the assert. -/
def SegmentPrefetch.resetPopRev (newPrefetchLimit : Int) :
    SegmentPrefetch → List SegmentReference → SegmentPrefetch
  | st, [] => st
  | st, reference :: rest =>
    if ((rest.length : Int) + 1 > newPrefetchLimit) then
      SegmentPrefetch.resetPopRev newPrefetchLimit
        (SegmentPrefetch.abortPrefetchedSegment_ st (Sum.inl reference)) rest
    else st

/-- `SegmentPrefetch.resetLimit`: assert `newPrefetchLimit >= 0`; store the
new limit; while the copied key array is longer than the new limit, pop its
last key and abort that entry; then prune orphaned init segments. -/
def SegmentPrefetch.resetLimit (st : SegmentPrefetch) (newPrefetchLimit : Int) :
    Except Unit SegmentPrefetch :=
  if 0 ≤ newPrefetchLimit then
    let st1 := { st with prefetchLimit_ := newPrefetchLimit }
    let st2 := SegmentPrefetch.resetPopRev newPrefetchLimit st1
      ((st1.segmentPrefetchMap_.map Prod.fst).reverse)
    Except.ok (SegmentPrefetch.clearInitSegments_ st2)
  else Except.error ()

/-- `SegmentPrefetch.deleteOnGet` (the setter method). -/
def SegmentPrefetch.deleteOnGet (st : SegmentPrefetch) (newDeleteOnGet : Bool) :
    SegmentPrefetch :=
  { st with deleteOnGet_ := newDeleteOnGet }

/-- `SegmentPrefetch.switchStream`: assert `deleteOnGet_`; when given a
(non-null) stream different from the current one, clear everything and
adopt it. -/
def SegmentPrefetch.switchStream (st : SegmentPrefetch) (stream : Option Stream) :
    Except Unit SegmentPrefetch :=
  if st.deleteOnGet_ then
    match stream with
    | some s =>
      if s ≠ st.stream_ then
        Except.ok { SegmentPrefetch.clearAll st with stream_ := s }
      else Except.ok st
    | none => Except.ok st
  else Except.error ()

/-- Environment event: the dispatcher's chunk handler fires for the operation
stored under the given reference (no-op when the entry is gone). -/
def SegmentPrefetch.chunkArrives (st : SegmentPrefetch) (reference : PrefetchKey)
    (data : List Nat) : SegmentPrefetch :=
  match reference with
  | Sum.inl r =>
    match mapGet st.segmentPrefetchMap_ r with
    | some op =>
      { st with segmentPrefetchMap_ :=
          mapSet st.segmentPrefetchMap_ r (SegmentPrefetchOperation.receiveChunk op data).1 }
    | none => st
  | Sum.inr ir =>
    match mapGet st.initSegmentPrefetchMap_ ir with
    | some op =>
      { st with initSegmentPrefetchMap_ :=
          mapSet st.initSegmentPrefetchMap_ ir (SegmentPrefetchOperation.receiveChunk op data).1 }
    | none => st

/-- One cache operation, as invoked by the environment. -/
inductive Action where
  | prefetchSegmentsByTime (currTime : Rat) (skipFirst : Bool)
  | prefetchInitSegment (iref : InitSegmentReference)
  | getPrefetchedSegment (reference : PrefetchKey) (cb : Option Nat)
  | evict (time : Rat)
  | resetLimit (n : Int)
  | deleteOnGet (b : Bool)
  | switchStream (s : Option Stream)
  | clearAll
  | replaceFetchDispatcher (d : Nat)
  | chunkArrives (reference : PrefetchKey) (data : List Nat)
deriving DecidableEq

/-- Apply one operation.  A call that trips its opening assert throws before
mutating anything, so the state is returned unchanged in the
`Except.error` case. -/
def applyAction (st : SegmentPrefetch) : Action → SegmentPrefetch
  | Action.prefetchSegmentsByTime t sf =>
    match SegmentPrefetch.prefetchSegmentsByTime st t sf with
    | Except.ok st' => st'
    | Except.error _ => st
  | Action.prefetchInitSegment iref =>
    match SegmentPrefetch.prefetchInitSegment st iref with
    | Except.ok st' => st'
    | Except.error _ => st
  | Action.getPrefetchedSegment reference cb =>
    match SegmentPrefetch.getPrefetchedSegment st reference cb with
    | Except.ok p => p.1
    | Except.error _ => st
  | Action.evict t => SegmentPrefetch.evict st t
  | Action.resetLimit n =>
    match SegmentPrefetch.resetLimit st n with
    | Except.ok st' => st'
    | Except.error _ => st
  | Action.deleteOnGet b => SegmentPrefetch.deleteOnGet st b
  | Action.switchStream s =>
    match SegmentPrefetch.switchStream st s with
    | Except.ok st' => st'
    | Except.error _ => st
  | Action.clearAll => SegmentPrefetch.clearAll st
  | Action.replaceFetchDispatcher d => SegmentPrefetch.replaceFetchDispatcher st d
  | Action.chunkArrives reference data => SegmentPrefetch.chunkArrives st reference data

/-- The state after a sequence of operations. -/
def reach (st : SegmentPrefetch) (acts : List Action) : SegmentPrefetch :=
  acts.foldl applyAction st

/-- Non-decreasing `startTime` order, as the `SegmentIndex` contract
guarantees for its reference sequence. -/
def sortedByStart : List SegmentReference → Bool
  | [] => true
  | [_] => true
  | a :: b :: rest =>
    decide (a.startTime ≤ b.startTime) && sortedByStart (b :: rest)

/-- A stream whose segment index (when present) obeys the `SegmentIndex`
ordering contract. -/
def streamSorted (s : Stream) : Bool :=
  match s.segmentIndex with
  | none => true
  | some refs => sortedByStart refs

/-- An operation is well-formed when any stream it hands to the cache obeys
the `SegmentIndex` ordering contract. -/
def wfAction : Action → Bool
  | Action.switchStream (some s) => streamSorted s
  | _ => true

/-- The operations that perform the full clear (and so reset
`prefetchPosTime_` to zero): `clearAll` itself and `switchStream`, which
calls it when adopting a different stream. -/
def isClearingAction : Action → Bool
  | Action.clearAll => true
  | Action.switchStream _ => true
  | _ => false

/-- Table lookup keyed by reference kind, as `getPrefetchedSegment` performs
it (`instanceof` dispatch onto the matching table). -/
def SegmentPrefetch.lookupRef (st : SegmentPrefetch) :
    PrefetchKey → Option SegmentPrefetchOperation
  | Sum.inl r => mapGet st.segmentPrefetchMap_ r
  | Sum.inr ir => mapGet st.initSegmentPrefetchMap_ ir

/-- Every init-table entry is pointed at by some media-table reference. -/
def initsCovered (st : SegmentPrefetch) : Prop :=
  ∀ p ∈ st.initSegmentPrefetchMap_,
    ∃ q ∈ st.segmentPrefetchMap_, q.1.initSegmentReference = some p.1

/-- A concrete init-segment reference for witnesses and counterexamples. -/
def exInit1 : InitSegmentReference := { id := 7 }

/-- A concrete media-segment reference: `[0, 2)`, eligible, no init link. -/
def exRef1 : SegmentReference :=
  { id := 1
    startTime := 0
    endTime := 2
    status := SegmentStatus.available
    isPartial := false
    isLastPartial := false
    isPreload := false
    endByte := none
    initSegmentReference := none }

/-- A concrete media-segment reference `[2, 4)` linked to `exInit1`. -/
def exRef2 : SegmentReference :=
  { id := 2
    startTime := 2
    endTime := 4
    status := SegmentStatus.available
    isPartial := false
    isLastPartial := false
    isPreload := false
    endByte := none
    initSegmentReference := some exInit1 }

/-- A concrete stream holding `exRef1` and `exRef2`. -/
def exStream : Stream :=
  { id := 1, stype := 0, fastSwitching := false, segmentIndex := some [exRef1, exRef2] }

/-- A concrete operation created by dispatcher `0`, two chunks buffered, no
consumer attached. -/
def exOpBuffered : SegmentPrefetchOperation :=
  { fetchDispatcher_ := 0
    streamDataCallback_ := none
    operation_ := some 0
    buffered := [1, 2] }

/-- A concrete cache state holding one media entry and one init entry, both
with dispatcher `0`. -/
def exState : SegmentPrefetch :=
  { prefetchLimit_ := 2
    stream_ := exStream
    prefetchPosTime_ := 2
    fetchDispatcher_ := 0
    deleteOnGet_ := true
    segmentPrefetchMap_ := [(exRef2, exOpBuffered)]
    initSegmentPrefetchMap_ := [(exInit1, exOpBuffered)]
    nextRequestId := 2
    scannedLog := []
    abortLog := [] }

/-- The portion of the iterator output that the `while` loop of
`prefetchSegmentsByTime` consumes: the iterator from
`max(currTime, prefetchPosTime_)`, minus one leading reference when
`skipFirst` (an abbreviation used to state lemmas about the call). -/
def sbtRemaining (st : SegmentPrefetch) (currTime : Rat) (skipFirst : Bool)
    (refs : List SegmentReference) : List SegmentReference :=
  let iter := getIteratorForTime (max currTime st.prefetchPosTime_) refs
  if skipFirst then iter.drop 1 else iter

/-- The operation dispatched for `exRef1` in `exRun1` below. -/
def exOp0 : SegmentPrefetchOperation :=
  { fetchDispatcher_ := 5
    streamDataCallback_ := none
    operation_ := some 0
    buffered := [] }

/-- A freshly constructed cache over `exStream` with limit 2. -/
def exInitState : SegmentPrefetch := SegmentPrefetch.init 2 exStream 5 true

/-- The cache after one `prefetchSegmentsByTime(0)` call on `exInitState`. -/
def exRun1 : SegmentPrefetch :=
  reach exInitState [Action.prefetchSegmentsByTime 0 false]

/-- The cache after `resetLimit(0)` on `exState`. -/
def exAfterReset : SegmentPrefetch :=
  (SegmentPrefetch.resetLimit exState 0).toOption.getD exState

/-- A cache whose prefetch limit is zero. -/
def exStateZero : SegmentPrefetch := { exState with prefetchLimit_ := 0 }

/-- Key uniqueness of both tables (intrinsic to JS `Map`s, maintained by the
code because insertions are guarded by `has` checks). -/
def invKeys (st : SegmentPrefetch) : Prop :=
  (st.segmentPrefetchMap_.map Prod.fst).Nodup ∧
  (st.initSegmentPrefetchMap_.map Prod.fst).Nodup

/-- The media-segment table never grows past the prefetch limit. -/
def invSize (st : SegmentPrefetch) : Prop :=
  (st.segmentPrefetchMap_.length : Int) ≤ max st.prefetchLimit_ 0

/-- Position invariant: the stream's index obeys the iterator ordering
contract, and `prefetchPosTime_` dominates the `startTime` of every
reference the walk has scanned and of every key of the media table. -/
def invPos (st : SegmentPrefetch) : Prop :=
  streamSorted st.stream_ = true ∧
  (∀ r ∈ st.scannedLog, r.startTime ≤ st.prefetchPosTime_) ∧
  (∀ k ∈ st.segmentPrefetchMap_.map Prod.fst, k.startTime ≤ st.prefetchPosTime_)

/-! ### Association-list map lemmas -/

theorem mapGet_eq_none_iff {α β : Type} [DecidableEq α] (m : List (α × β)) (k : α) :
    mapGet m k = none ↔ k ∉ m.map Prod.fst := by
  induction m with
  | nil => simp [mapGet]
  | cons p rest ih =>
    by_cases h : p.1 = k
    · simp [mapGet, h]
    · simp [mapGet, h, ih, Ne.symm h]

theorem mapGet_append_left {α β : Type} [DecidableEq α] {m1 : List (α × β)}
    (m2 : List (α × β)) {k : α} {v : β} (h : mapGet m1 k = some v) :
    mapGet (m1 ++ m2) k = some v := by
  induction m1 with
  | nil => simp [mapGet] at h
  | cons p rest ih =>
    by_cases hp : p.1 = k
    · simp [mapGet, hp] at h ⊢; exact h
    · simp [mapGet, hp] at h ⊢; exact ih h

theorem mapGet_append_right {α β : Type} [DecidableEq α] {m1 : List (α × β)}
    (m2 : List (α × β)) {k : α} (h : k ∉ m1.map Prod.fst) :
    mapGet (m1 ++ m2) k = mapGet m2 k := by
  induction m1 with
  | nil => simp
  | cons p rest ih =>
    simp only [List.map_cons, List.mem_cons] at h
    push_neg at h
    simp [mapGet, Ne.symm h.1, ih h.2]

theorem mapDelete_sublist {α β : Type} [DecidableEq α] (m : List (α × β)) (k : α) :
    List.Sublist (mapDelete m k) m := by
  induction m with
  | nil => simp [mapDelete]
  | cons p rest ih =>
    by_cases h : p.1 = k
    · simp only [mapDelete, if_pos h]
      exact ih.trans (List.sublist_cons_self p rest)
    · simpa only [mapDelete, if_neg h] using List.Sublist.cons₂ p ih

theorem mem_of_mem_mapDelete {α β : Type} [DecidableEq α] {m : List (α × β)}
    {k : α} {p : α × β} (h : p ∈ mapDelete m k) : p ∈ m :=
  (mapDelete_sublist m k).mem h

theorem mapGet_mapDelete_self {α β : Type} [DecidableEq α] (m : List (α × β)) (k : α) :
    mapGet (mapDelete m k) k = none := by
  induction m with
  | nil => simp [mapDelete, mapGet]
  | cons p rest ih =>
    by_cases h : p.1 = k
    · simpa [mapDelete, h] using ih
    · simpa [mapDelete, mapGet, h] using ih

theorem mapDelete_of_notMem {α β : Type} [DecidableEq α] {m : List (α × β)}
    {k : α} (h : k ∉ m.map Prod.fst) : mapDelete m k = m := by
  induction m with
  | nil => simp [mapDelete]
  | cons p rest ih =>
    simp only [List.map_cons, List.mem_cons] at h
    push_neg at h
    simp [mapDelete, Ne.symm h.1, ih h.2]

theorem mapDelete_append {α β : Type} [DecidableEq α] (m1 m2 : List (α × β)) (k : α) :
    mapDelete (m1 ++ m2) k = mapDelete m1 k ++ mapDelete m2 k := by
  induction m1 with
  | nil => simp [mapDelete]
  | cons p rest ih =>
    by_cases h : p.1 = k
    · simp [mapDelete, h, ih]
    · simp [mapDelete, h, ih]

theorem notMem_of_mapGet_none {α β : Type} [DecidableEq α] {m : List (α × β)}
    {k : α} (h : mapGet m k = none) : k ∉ m.map Prod.fst :=
  (mapGet_eq_none_iff m k).mp h

theorem mapSet_of_get_none {α β : Type} [DecidableEq α] {m : List (α × β)}
    {k : α} (v : β) (h : mapGet m k = none) : mapSet m k v = m ++ [(k, v)] := by
  induction m with
  | nil => simp [mapSet]
  | cons p rest ih =>
    by_cases hp : p.1 = k
    · simp [mapGet, hp] at h
    · simp [mapGet, hp] at h
      simp [mapSet, hp, ih h]

theorem keys_mapSet_of_get_some {α β : Type} [DecidableEq α] {m : List (α × β)}
    {k : α} {v0 : β} (v : β) (h : mapGet m k = some v0) :
    (mapSet m k v).map Prod.fst = m.map Prod.fst := by
  induction m with
  | nil => simp [mapGet] at h
  | cons p rest ih =>
    by_cases hp : p.1 = k
    · simp [mapSet, hp]
    · simp [mapGet, hp] at h
      simp [mapSet, hp, ih h]

theorem length_mapSet_of_get_some {α β : Type} [DecidableEq α] {m : List (α × β)}
    {k : α} {v0 : β} (v : β) (h : mapGet m k = some v0) :
    (mapSet m k v).length = m.length := by
  have := @keys_mapSet_of_get_some _ _ _ m k v0 v h
  have h1 : ((mapSet m k v).map Prod.fst).length = (m.map Prod.fst).length := by rw [this]
  simpa using h1

theorem mem_mapSet {α β : Type} [DecidableEq α] {m : List (α × β)} {k : α} {v : β}
    {p : α × β} (h : p ∈ mapSet m k v) : p = (k, v) ∨ p ∈ m := by
  induction m with
  | nil => simpa [mapSet] using h
  | cons q rest ih =>
    by_cases hq : q.1 = k
    · simp only [mapSet, if_pos hq, List.mem_cons] at h
      rcases h with h | h
      · exact Or.inl h
      · exact Or.inr (List.mem_cons_of_mem q h)
    · simp only [mapSet, if_neg hq, List.mem_cons] at h
      rcases h with h | h
      · exact Or.inr (by simp [h])
      · rcases ih h with h1 | h1
        · exact Or.inl h1
        · exact Or.inr (List.mem_cons_of_mem q h1)

theorem mapGet_mapDelete_ne {α β : Type} [DecidableEq α] (m : List (α × β))
    {k k' : α} (h : k' ≠ k) : mapGet (mapDelete m k') k = mapGet m k := by
  induction m with
  | nil => simp [mapDelete]
  | cons p rest ih =>
    by_cases hp : p.1 = k'
    · have hpk : ¬ p.1 = k := by rw [hp]; exact h
      simp [mapDelete, mapGet, hp, hpk, ih, h]
    · simp only [mapDelete, if_neg hp, mapGet]
      by_cases hk : p.1 = k
      · simp [hk]
      · simp [hk, ih]

/-! ### Effect lemmas for `abortPrefetchedSegment_` -/

theorem abort_inl_eq_some {st : SegmentPrefetch} {r : SegmentReference}
    {op : SegmentPrefetchOperation} (h : mapGet st.segmentPrefetchMap_ r = some op) :
    SegmentPrefetch.abortPrefetchedSegment_ st (Sum.inl r) =
      { st with
        segmentPrefetchMap_ := mapDelete st.segmentPrefetchMap_ r
        abortLog := st.abortLog ++ [Sum.inl r] } := by
  simp only [SegmentPrefetch.abortPrefetchedSegment_, h]

theorem abort_inl_eq_none {st : SegmentPrefetch} {r : SegmentReference}
    (h : mapGet st.segmentPrefetchMap_ r = none) :
    SegmentPrefetch.abortPrefetchedSegment_ st (Sum.inl r) =
      { st with segmentPrefetchMap_ := mapDelete st.segmentPrefetchMap_ r } := by
  simp only [SegmentPrefetch.abortPrefetchedSegment_, h]

theorem abort_inr_eq_some {st : SegmentPrefetch} {ir : InitSegmentReference}
    {op : SegmentPrefetchOperation} (h : mapGet st.initSegmentPrefetchMap_ ir = some op) :
    SegmentPrefetch.abortPrefetchedSegment_ st (Sum.inr ir) =
      { st with
        initSegmentPrefetchMap_ := mapDelete st.initSegmentPrefetchMap_ ir
        abortLog := st.abortLog ++ [Sum.inr ir] } := by
  simp only [SegmentPrefetch.abortPrefetchedSegment_, h]

theorem abort_inr_eq_none {st : SegmentPrefetch} {ir : InitSegmentReference}
    (h : mapGet st.initSegmentPrefetchMap_ ir = none) :
    SegmentPrefetch.abortPrefetchedSegment_ st (Sum.inr ir) =
      { st with initSegmentPrefetchMap_ := mapDelete st.initSegmentPrefetchMap_ ir } := by
  simp only [SegmentPrefetch.abortPrefetchedSegment_, h]

theorem abort_frame (st : SegmentPrefetch) (k : PrefetchKey) :
    (SegmentPrefetch.abortPrefetchedSegment_ st k).prefetchLimit_ = st.prefetchLimit_ ∧
    (SegmentPrefetch.abortPrefetchedSegment_ st k).stream_ = st.stream_ ∧
    (SegmentPrefetch.abortPrefetchedSegment_ st k).prefetchPosTime_ = st.prefetchPosTime_ ∧
    (SegmentPrefetch.abortPrefetchedSegment_ st k).deleteOnGet_ = st.deleteOnGet_ ∧
    (SegmentPrefetch.abortPrefetchedSegment_ st k).fetchDispatcher_ = st.fetchDispatcher_ ∧
    (SegmentPrefetch.abortPrefetchedSegment_ st k).scannedLog = st.scannedLog ∧
    (SegmentPrefetch.abortPrefetchedSegment_ st k).nextRequestId = st.nextRequestId := by
  rcases k with r | ir
  · cases h : mapGet st.segmentPrefetchMap_ r
    · rw [abort_inl_eq_none h]; exact ⟨rfl, rfl, rfl, rfl, rfl, rfl, rfl⟩
    · rw [abort_inl_eq_some h]; exact ⟨rfl, rfl, rfl, rfl, rfl, rfl, rfl⟩
  · cases h : mapGet st.initSegmentPrefetchMap_ ir
    · rw [abort_inr_eq_none h]; exact ⟨rfl, rfl, rfl, rfl, rfl, rfl, rfl⟩
    · rw [abort_inr_eq_some h]; exact ⟨rfl, rfl, rfl, rfl, rfl, rfl, rfl⟩

theorem abort_inl_maps (st : SegmentPrefetch) (r : SegmentReference) :
    (SegmentPrefetch.abortPrefetchedSegment_ st (Sum.inl r)).segmentPrefetchMap_ =
      mapDelete st.segmentPrefetchMap_ r ∧
    (SegmentPrefetch.abortPrefetchedSegment_ st (Sum.inl r)).initSegmentPrefetchMap_ =
      st.initSegmentPrefetchMap_ := by
  cases h : mapGet st.segmentPrefetchMap_ r
  · rw [abort_inl_eq_none h]; exact ⟨rfl, rfl⟩
  · rw [abort_inl_eq_some h]; exact ⟨rfl, rfl⟩

theorem abort_inr_maps (st : SegmentPrefetch) (ir : InitSegmentReference) :
    (SegmentPrefetch.abortPrefetchedSegment_ st (Sum.inr ir)).initSegmentPrefetchMap_ =
      mapDelete st.initSegmentPrefetchMap_ ir ∧
    (SegmentPrefetch.abortPrefetchedSegment_ st (Sum.inr ir)).segmentPrefetchMap_ =
      st.segmentPrefetchMap_ := by
  cases h : mapGet st.initSegmentPrefetchMap_ ir
  · rw [abort_inr_eq_none h]; exact ⟨rfl, rfl⟩
  · rw [abort_inr_eq_some h]; exact ⟨rfl, rfl⟩

theorem abort_log (st : SegmentPrefetch) (k : PrefetchKey) :
    ∃ ext, (SegmentPrefetch.abortPrefetchedSegment_ st k).abortLog = st.abortLog ++ ext ∧
      ∀ x ∈ ext, x = k := by
  rcases k with r | ir
  · cases h : mapGet st.segmentPrefetchMap_ r
    · exact ⟨[], by rw [abort_inl_eq_none h]; simp⟩
    · exact ⟨[Sum.inl r], by rw [abort_inl_eq_some h]; simp⟩
  · cases h : mapGet st.initSegmentPrefetchMap_ ir
    · exact ⟨[], by rw [abort_inr_eq_none h]; simp⟩
    · exact ⟨[Sum.inr ir], by rw [abort_inr_eq_some h]; simp⟩

/-! ### More map lemmas -/

theorem keyNe_of_mem_mapDelete {α β : Type} [DecidableEq α] {m : List (α × β)}
    {k : α} {p : α × β} (h : p ∈ mapDelete m k) : ¬ p.1 = k := by
  induction m with
  | nil => simp [mapDelete] at h
  | cons q rest ih =>
    by_cases hq : q.1 = k
    · exact ih (by simpa [mapDelete, hq] using h)
    · rcases List.mem_cons.mp (by simpa [mapDelete, hq] using h) with h1 | h1
      · rw [h1]; exact hq
      · exact ih h1

/-! ### `clearInitLoop` lemmas -/

theorem clearInitLoop_frame (srefs : List SegmentReference)
    (ks : List InitSegmentReference) : ∀ st : SegmentPrefetch,
    (SegmentPrefetch.clearInitLoop srefs st ks).segmentPrefetchMap_ = st.segmentPrefetchMap_ ∧
    (SegmentPrefetch.clearInitLoop srefs st ks).prefetchLimit_ = st.prefetchLimit_ ∧
    (SegmentPrefetch.clearInitLoop srefs st ks).prefetchPosTime_ = st.prefetchPosTime_ ∧
    (SegmentPrefetch.clearInitLoop srefs st ks).stream_ = st.stream_ ∧
    (SegmentPrefetch.clearInitLoop srefs st ks).deleteOnGet_ = st.deleteOnGet_ ∧
    (SegmentPrefetch.clearInitLoop srefs st ks).fetchDispatcher_ = st.fetchDispatcher_ ∧
    (SegmentPrefetch.clearInitLoop srefs st ks).scannedLog = st.scannedLog ∧
    (SegmentPrefetch.clearInitLoop srefs st ks).nextRequestId = st.nextRequestId := by
  induction ks with
  | nil => intro st; exact ⟨rfl, rfl, rfl, rfl, rfl, rfl, rfl, rfl⟩
  | cons k rest ih =>
    intro st
    simp only [SegmentPrefetch.clearInitLoop]
    by_cases hb : (srefs.any fun sr => decide (sr.initSegmentReference = some k)) = true
    · simpa [hb] using ih st
    · simp only [Bool.not_eq_true] at hb
      simp only [hb, Bool.not_false, if_pos]
      obtain ⟨f1, f2, f3, f4, f5, f6, f7⟩ := abort_frame st (Sum.inr k)
      obtain ⟨g1, g2, g3, g4, g5, g6, g7, g8⟩ :=
        ih (SegmentPrefetch.abortPrefetchedSegment_ st (Sum.inr k))
      exact ⟨g1.trans (abort_inr_maps st k).2, g2.trans f1, g3.trans f3, g4.trans f2,
        g5.trans f4, g6.trans f5, g7.trans f6, g8.trans f7⟩

theorem clearInitLoop_shrink (srefs : List SegmentReference)
    (ks : List InitSegmentReference) : ∀ st : SegmentPrefetch,
    List.Sublist (SegmentPrefetch.clearInitLoop srefs st ks).initSegmentPrefetchMap_
      st.initSegmentPrefetchMap_ ∧
    ∃ ext, (SegmentPrefetch.clearInitLoop srefs st ks).abortLog = st.abortLog ++ ext ∧
      ∀ x ∈ ext, ∃ i, x = Sum.inr i := by
  induction ks with
  | nil =>
    intro st
    exact ⟨List.Sublist.refl _, [], by simp [SegmentPrefetch.clearInitLoop], by simp⟩
  | cons k rest ih =>
    intro st
    simp only [SegmentPrefetch.clearInitLoop]
    by_cases hb : (srefs.any fun sr => decide (sr.initSegmentReference = some k)) = true
    · simpa [hb] using ih st
    · simp only [Bool.not_eq_true] at hb
      simp only [hb, Bool.not_false, if_pos]
      obtain ⟨hsub, ext, hlog, hext⟩ :=
        ih (SegmentPrefetch.abortPrefetchedSegment_ st (Sum.inr k))
      obtain ⟨e1, he1, he1k⟩ := abort_log st (Sum.inr k)
      refine ⟨hsub.trans ?_, e1 ++ ext, ?_, ?_⟩
      · rw [(abort_inr_maps st k).1]; exact mapDelete_sublist _ _
      · rw [hlog, he1, List.append_assoc]
      · intro x hx
        rcases List.mem_append.mp hx with h1 | h1
        · exact ⟨k, he1k x h1⟩
        · exact hext x h1

theorem clearInitLoop_covered (srefs : List SegmentReference)
    (ks : List InitSegmentReference) : ∀ st : SegmentPrefetch,
    (∀ p ∈ st.initSegmentPrefetchMap_, p.1 ∈ ks ∨
      (srefs.any fun sr => decide (sr.initSegmentReference = some p.1)) = true) →
    ∀ p ∈ (SegmentPrefetch.clearInitLoop srefs st ks).initSegmentPrefetchMap_,
      (srefs.any fun sr => decide (sr.initSegmentReference = some p.1)) = true := by
  induction ks with
  | nil =>
    intro st h p hp
    rcases h p hp with h1 | h1
    · simp at h1
    · exact h1
  | cons k rest ih =>
    intro st h
    simp only [SegmentPrefetch.clearInitLoop]
    by_cases hb : (srefs.any fun sr => decide (sr.initSegmentReference = some k)) = true
    · simp only [hb, Bool.not_true, Bool.false_eq_true, if_false]
      apply ih st
      intro p hp
      rcases h p hp with h1 | h1
      · rcases List.mem_cons.mp h1 with h2 | h2
        · rw [h2]; exact Or.inr hb
        · exact Or.inl h2
      · exact Or.inr h1
    · simp only [Bool.not_eq_true] at hb
      simp only [hb, Bool.not_false, if_pos]
      apply ih
      intro p hp
      rw [(abort_inr_maps st k).1] at hp
      have hp0 : p ∈ st.initSegmentPrefetchMap_ := mem_of_mem_mapDelete hp
      have hpk : ¬ p.1 = k := keyNe_of_mem_mapDelete hp
      rcases h p hp0 with h1 | h1
      · rcases List.mem_cons.mp h1 with h2 | h2
        · exact absurd h2 hpk
        · exact Or.inl h2
      · exact Or.inr h1

/-! ### `evictLoop` lemmas -/

theorem evictLoop_frame (t : Rat) (ks : List SegmentReference) :
    ∀ st : SegmentPrefetch,
    (SegmentPrefetch.evictLoop t st ks).initSegmentPrefetchMap_ = st.initSegmentPrefetchMap_ ∧
    (SegmentPrefetch.evictLoop t st ks).prefetchLimit_ = st.prefetchLimit_ ∧
    (SegmentPrefetch.evictLoop t st ks).prefetchPosTime_ = st.prefetchPosTime_ ∧
    (SegmentPrefetch.evictLoop t st ks).stream_ = st.stream_ ∧
    (SegmentPrefetch.evictLoop t st ks).deleteOnGet_ = st.deleteOnGet_ ∧
    (SegmentPrefetch.evictLoop t st ks).fetchDispatcher_ = st.fetchDispatcher_ ∧
    (SegmentPrefetch.evictLoop t st ks).scannedLog = st.scannedLog ∧
    (SegmentPrefetch.evictLoop t st ks).nextRequestId = st.nextRequestId ∧
    List.Sublist (SegmentPrefetch.evictLoop t st ks).segmentPrefetchMap_
      st.segmentPrefetchMap_ := by
  induction ks with
  | nil =>
    intro st
    exact ⟨rfl, rfl, rfl, rfl, rfl, rfl, rfl, rfl, List.Sublist.refl _⟩
  | cons k rest ih =>
    intro st
    simp only [SegmentPrefetch.evictLoop]
    by_cases hb : t > k.endTime
    · simp only [if_pos hb]
      obtain ⟨f1, f2, f3, f4, f5, f6, f7⟩ := abort_frame st (Sum.inl k)
      obtain ⟨g1, g2, g3, g4, g5, g6, g7, g8, g9⟩ :=
        ih (SegmentPrefetch.abortPrefetchedSegment_ st (Sum.inl k))
      refine ⟨g1.trans (abort_inl_maps st k).2, g2.trans f1, g3.trans f3, g4.trans f2,
        g5.trans f4, g6.trans f5, g7.trans f6, g8.trans f7, g9.trans ?_⟩
      rw [(abort_inl_maps st k).1]
      exact mapDelete_sublist _ _
    · simpa [hb] using ih st

theorem evictLoop_spec (t : Rat) :
    ∀ (m pre : List (SegmentReference × SegmentPrefetchOperation)) (st : SegmentPrefetch),
    st.segmentPrefetchMap_ = pre ++ m →
    (((pre ++ m).map Prod.fst).Nodup) →
    SegmentPrefetch.evictLoop t st (m.map Prod.fst) =
      { st with
        segmentPrefetchMap_ := pre ++ m.filter (fun p => !decide (t > p.1.endTime))
        abortLog := st.abortLog ++
          (m.filter (fun p => decide (t > p.1.endTime))).map (fun p => Sum.inl p.1) } := by
  intro m
  induction m with
  | nil =>
    intro pre st hst _
    simp only [List.map_nil, SegmentPrefetch.evictLoop, List.filter_nil,
      List.append_nil, List.map_nil, ← hst]
  | cons q m' ih =>
    intro pre st hst hnd
    have hnd' : (List.map Prod.fst pre ++ q.1 :: List.map Prod.fst m').Nodup := by
      simpa using hnd
    rcases List.nodup_append.mp hnd' with ⟨hndpre, hndcons, hdisj⟩
    have hq_pre : q.1 ∉ List.map Prod.fst pre := fun hmem =>
      hdisj hmem (List.mem_cons_self _ _)
    have hq_m' : q.1 ∉ List.map Prod.fst m' := (List.nodup_cons.mp hndcons).1
    have hndrest : (List.map Prod.fst pre ++ List.map Prod.fst m').Nodup :=
      List.nodup_append.mpr ⟨hndpre, (List.nodup_cons.mp hndcons).2,
        fun _ ha hb2 => hdisj ha (List.mem_cons_of_mem _ hb2)⟩
    simp only [List.map_cons, SegmentPrefetch.evictLoop]
    by_cases hb : t > q.1.endTime
    · simp only [if_pos hb]
      have hget : mapGet st.segmentPrefetchMap_ q.1 = some q.2 := by
        rw [hst, mapGet_append_right _ hq_pre]
        simp [mapGet]
      rw [abort_inl_eq_some hget]
      have hdel : mapDelete st.segmentPrefetchMap_ q.1 = pre ++ m' := by
        rw [hst, mapDelete_append, mapDelete_of_notMem hq_pre]
        simp [mapDelete, mapDelete_of_notMem hq_m']
      rw [hdel]
      rw [ih pre _ rfl (by simpa using hndrest)]
      have hfilter1 : List.filter (fun p => !decide (t > p.1.endTime)) (q :: m') =
          List.filter (fun p => !decide (t > p.1.endTime)) m' := by
        rw [List.filter_cons]; simp [hb]
      have hfilter2 : List.filter (fun p => decide (t > p.1.endTime)) (q :: m') =
          q :: List.filter (fun p => decide (t > p.1.endTime)) m' := by
        rw [List.filter_cons]; simp [hb]
      rw [hfilter1, hfilter2]
      simp [List.append_assoc]
    · simp only [if_neg hb]
      have hst' : st.segmentPrefetchMap_ = (pre ++ [q]) ++ m' := by
        rw [hst]; simp
      rw [ih (pre ++ [q]) st hst' (by
        rw [show (pre ++ [q]) ++ m' = pre ++ q :: m' by simp]
        exact hnd)]
      have hfilter1 : List.filter (fun p => !decide (t > p.1.endTime)) (q :: m') =
          q :: List.filter (fun p => !decide (t > p.1.endTime)) m' := by
        rw [List.filter_cons]; simp [hb]
      have hfilter2 : List.filter (fun p => decide (t > p.1.endTime)) (q :: m') =
          List.filter (fun p => decide (t > p.1.endTime)) m' := by
        rw [List.filter_cons]; simp [hb]
      rw [hfilter1, hfilter2]
      simp [List.append_assoc]

/-! ### `clearMap_` and `clearAll` lemmas -/

theorem clearMap_frame (ks : List PrefetchKey) : ∀ st : SegmentPrefetch,
    (SegmentPrefetch.clearMap_ st ks).prefetchLimit_ = st.prefetchLimit_ ∧
    (SegmentPrefetch.clearMap_ st ks).stream_ = st.stream_ ∧
    (SegmentPrefetch.clearMap_ st ks).deleteOnGet_ = st.deleteOnGet_ ∧
    (SegmentPrefetch.clearMap_ st ks).fetchDispatcher_ = st.fetchDispatcher_ ∧
    (SegmentPrefetch.clearMap_ st ks).nextRequestId = st.nextRequestId ∧
    List.Sublist (SegmentPrefetch.clearMap_ st ks).segmentPrefetchMap_
      st.segmentPrefetchMap_ ∧
    List.Sublist (SegmentPrefetch.clearMap_ st ks).initSegmentPrefetchMap_
      st.initSegmentPrefetchMap_ := by
  induction ks with
  | nil =>
    intro st
    exact ⟨rfl, rfl, rfl, rfl, rfl, List.Sublist.refl _, List.Sublist.refl _⟩
  | cons k rest ih =>
    intro st
    simp only [SegmentPrefetch.clearMap_]
    obtain ⟨f1, f2, _, f4, f5, _, f7⟩ := abort_frame st k
    obtain ⟨g1, g2, g3, g4, g5, g6, g7⟩ :=
      ih (SegmentPrefetch.abortPrefetchedSegment_ st k)
    refine ⟨g1.trans f1, g2.trans f2, g3.trans f4, g4.trans f5, g5.trans f7,
      g6.trans ?_, g7.trans ?_⟩
    · rcases k with r | ir
      · rw [(abort_inl_maps st r).1]; exact mapDelete_sublist _ _
      · rw [(abort_inr_maps st ir).2]
    · rcases k with r | ir
      · rw [(abort_inl_maps st r).2]
      · rw [(abort_inr_maps st ir).1]; exact mapDelete_sublist _ _

theorem clearMap_empty_inl (ks : List PrefetchKey) : ∀ st : SegmentPrefetch,
    (∀ p ∈ st.segmentPrefetchMap_, Sum.inl p.1 ∈ ks) →
    (SegmentPrefetch.clearMap_ st ks).segmentPrefetchMap_ = [] := by
  induction ks with
  | nil =>
    intro st h
    cases hm : st.segmentPrefetchMap_ with
    | nil => simp [SegmentPrefetch.clearMap_, hm]
    | cons p rest =>
      exfalso
      have := h p (by rw [hm]; exact List.mem_cons_self p rest)
      simp at this
  | cons k rest ih =>
    intro st h
    simp only [SegmentPrefetch.clearMap_]
    apply ih
    intro p hp
    rcases k with r | ir
    · rw [(abort_inl_maps st r).1] at hp
      have hp0 := mem_of_mem_mapDelete hp
      have hpk := keyNe_of_mem_mapDelete hp
      rcases List.mem_cons.mp (h p hp0) with h1 | h1
      · exfalso; apply hpk; injection h1
      · exact h1
    · rw [(abort_inr_maps st ir).2] at hp
      rcases List.mem_cons.mp (h p hp) with h1 | h1
      · exact absurd h1 (by simp)
      · exact h1

theorem clearMap_empty_inr (ks : List PrefetchKey) : ∀ st : SegmentPrefetch,
    (∀ p ∈ st.initSegmentPrefetchMap_, Sum.inr p.1 ∈ ks) →
    (SegmentPrefetch.clearMap_ st ks).initSegmentPrefetchMap_ = [] := by
  induction ks with
  | nil =>
    intro st h
    cases hm : st.initSegmentPrefetchMap_ with
    | nil => simp [SegmentPrefetch.clearMap_, hm]
    | cons p rest =>
      exfalso
      have := h p (by rw [hm]; exact List.mem_cons_self p rest)
      simp at this
  | cons k rest ih =>
    intro st h
    simp only [SegmentPrefetch.clearMap_]
    apply ih
    intro p hp
    rcases k with r | ir
    · rw [(abort_inl_maps st r).2] at hp
      rcases List.mem_cons.mp (h p hp) with h1 | h1
      · exact absurd h1 (by simp)
      · exact h1
    · rw [(abort_inr_maps st ir).1] at hp
      have hp0 := mem_of_mem_mapDelete hp
      have hpk := keyNe_of_mem_mapDelete hp
      rcases List.mem_cons.mp (h p hp0) with h1 | h1
      · exfalso; apply hpk; injection h1
      · exact h1

theorem clearAll_spec (st : SegmentPrefetch) :
    (SegmentPrefetch.clearAll st).segmentPrefetchMap_ = [] ∧
    (SegmentPrefetch.clearAll st).initSegmentPrefetchMap_ = [] ∧
    (SegmentPrefetch.clearAll st).prefetchPosTime_ = 0 ∧
    (SegmentPrefetch.clearAll st).scannedLog = [] ∧
    (SegmentPrefetch.clearAll st).prefetchLimit_ = st.prefetchLimit_ ∧
    (SegmentPrefetch.clearAll st).stream_ = st.stream_ ∧
    (SegmentPrefetch.clearAll st).deleteOnGet_ = st.deleteOnGet_ ∧
    (SegmentPrefetch.clearAll st).fetchDispatcher_ = st.fetchDispatcher_ := by
  have h1 : (SegmentPrefetch.clearMap_ st
      (st.segmentPrefetchMap_.map (fun p => Sum.inl p.1))).segmentPrefetchMap_ = [] :=
    clearMap_empty_inl _ st (fun p hp => List.mem_map_of_mem _ hp)
  set st1 := SegmentPrefetch.clearMap_ st
    (st.segmentPrefetchMap_.map (fun p => Sum.inl p.1)) with hst1
  have h2 : (SegmentPrefetch.clearMap_ st1
      (st1.initSegmentPrefetchMap_.map (fun p => Sum.inr p.1))).initSegmentPrefetchMap_ = [] :=
    clearMap_empty_inr _ st1 (fun p hp => List.mem_map_of_mem _ hp)
  set st2 := SegmentPrefetch.clearMap_ st1
    (st1.initSegmentPrefetchMap_.map (fun p => Sum.inr p.1)) with hst2
  have hmedia2 : st2.segmentPrefetchMap_ = [] := by
    have hsub := (clearMap_frame
      (st1.initSegmentPrefetchMap_.map (fun p => Sum.inr p.1)) st1).2.2.2.2.2.1
    rw [h1] at hsub
    exact List.sublist_nil.mp hsub
  have hframe1 := clearMap_frame (st.segmentPrefetchMap_.map (fun p => Sum.inl p.1)) st
  have hframe2 := clearMap_frame (st1.initSegmentPrefetchMap_.map (fun p => Sum.inr p.1)) st1
  have hall : SegmentPrefetch.clearAll st =
      { st2 with prefetchPosTime_ := 0, scannedLog := [] } := rfl
  rw [hall]
  refine ⟨hmedia2, h2, rfl, rfl, ?_, ?_, ?_, ?_⟩
  · exact (hframe2.1).trans hframe1.1
  · exact (hframe2.2.1).trans hframe1.2.1
  · exact (hframe2.2.2.1).trans hframe1.2.2.1
  · exact (hframe2.2.2.2.1).trans hframe1.2.2.2.1

/-! ### `resetPopRev` characterization -/

theorem resetPopRev_spec (n : Int) :
    ∀ (m : List (SegmentReference × SegmentPrefetchOperation)) (st : SegmentPrefetch),
    st.segmentPrefetchMap_ = m → ((m.map Prod.fst).Nodup) →
    SegmentPrefetch.resetPopRev n st ((m.map Prod.fst).reverse) =
      { st with
        segmentPrefetchMap_ := m.take n.toNat
        abortLog := st.abortLog ++
          ((m.drop n.toNat).map (fun p => Sum.inl p.1)).reverse } := by
  intro m
  induction m using List.reverseRecOn with
  | nil =>
    intro st hst _
    simp only [List.map_nil, List.reverse_nil, SegmentPrefetch.resetPopRev,
      List.take_nil, List.drop_nil, List.append_nil]
    rw [← hst]
  | append_singleton m0 q ih =>
    intro st hst hnd
    have hndkeys : ((m0.map Prod.fst) ++ [q.1]).Nodup := by simpa using hnd
    rcases List.nodup_append.mp hndkeys with ⟨hnd0, _, hdisj⟩
    have hq0 : q.1 ∉ m0.map Prod.fst := fun hmem => hdisj hmem (by simp)
    have hrev : (((m0 ++ [q]).map Prod.fst).reverse :
        List SegmentReference) = q.1 :: (m0.map Prod.fst).reverse := by
      simp
    rw [hrev]
    simp only [SegmentPrefetch.resetPopRev, List.length_reverse, List.length_map]
    by_cases hc : ((m0.length : Int) + 1 > n)
    · rw [if_pos hc]
      have hget : mapGet st.segmentPrefetchMap_ q.1 = some q.2 := by
        rw [hst, mapGet_append_right _ hq0]
        simp [mapGet]
      rw [abort_inl_eq_some hget]
      have hdel : mapDelete st.segmentPrefetchMap_ q.1 = m0 := by
        rw [hst, mapDelete_append, mapDelete_of_notMem hq0]
        simp [mapDelete]
      rw [hdel]
      rw [ih _ rfl hnd0]
      have hle : n.toNat ≤ m0.length := by omega
      have htake : (m0 ++ [q]).take n.toNat = m0.take n.toNat := by
        rw [List.take_append_eq_append_take, Nat.sub_eq_zero_of_le hle]
        simp
      have hdrop : (m0 ++ [q]).drop n.toNat = m0.drop n.toNat ++ [q] := by
        rw [List.drop_append_eq_append_drop, Nat.sub_eq_zero_of_le hle]
        simp
      rw [htake, hdrop]
      simp [List.append_assoc]
    · rw [if_neg hc]
      have hge : m0.length + 1 ≤ n.toNat := by omega
      have htake : (m0 ++ [q]).take n.toNat = m0 ++ [q] := by
        apply List.take_of_length_le
        simp; omega
      have hdrop : (m0 ++ [q]).drop n.toNat = [] := by
        apply List.drop_eq_nil_of_le
        simp; omega
      rw [htake, hdrop, ← hst]
      simp

/-! ### `prefetchInitSegment` lemmas -/

theorem prefetchInitSegment_ok {st : SegmentPrefetch} {iref : InitSegmentReference}
    {st' : SegmentPrefetch}
    (h : SegmentPrefetch.prefetchInitSegment st iref = Except.ok st') :
    st'.segmentPrefetchMap_ = st.segmentPrefetchMap_ ∧
    st'.prefetchLimit_ = st.prefetchLimit_ ∧
    st'.stream_ = st.stream_ ∧
    st'.prefetchPosTime_ = st.prefetchPosTime_ ∧
    st'.deleteOnGet_ = st.deleteOnGet_ ∧
    st'.fetchDispatcher_ = st.fetchDispatcher_ ∧
    st'.scannedLog = st.scannedLog ∧
    st'.abortLog = st.abortLog ∧
    (st'.initSegmentPrefetchMap_ = st.initSegmentPrefetchMap_ ∨
      (mapGet st.initSegmentPrefetchMap_ iref = none ∧ ∃ op,
        st'.initSegmentPrefetchMap_ = st.initSegmentPrefetchMap_ ++ [(iref, op)])) := by
  unfold SegmentPrefetch.prefetchInitSegment at h
  by_cases hl : 0 < st.prefetchLimit_
  · rw [if_pos hl] at h
    cases hidx : st.stream_.segmentIndex with
    | none =>
      rw [hidx] at h
      injection h with h
      subst h
      exact ⟨rfl, rfl, rfl, rfl, rfl, rfl, rfl, rfl, Or.inl rfl⟩
    | some refs =>
      rw [hidx] at h
      by_cases hhas : mapHas st.initSegmentPrefetchMap_ iref = true
      · simp only [hhas, if_pos] at h
        injection h with h
        subst h
        exact ⟨rfl, rfl, rfl, rfl, rfl, rfl, rfl, rfl, Or.inl rfl⟩
      · have hnone : mapGet st.initSegmentPrefetchMap_ iref = none := by
          rcases hg : mapGet st.initSegmentPrefetchMap_ iref with _ | v
          · rfl
          · exact absurd (by simp [mapHas, hg]) hhas
        simp only [hhas, if_neg, Bool.false_eq_true, if_false] at h
        injection h with h
        subst h
        exact ⟨rfl, rfl, rfl, rfl, rfl, rfl, rfl, rfl,
          Or.inr ⟨hnone, _, mapSet_of_get_none _ hnone⟩⟩
  · rw [if_neg hl] at h
    cases h

theorem prefetchInitSegment_isOk {st : SegmentPrefetch} (iref : InitSegmentReference)
    (hl : 0 < st.prefetchLimit_) :
    ∃ st', SegmentPrefetch.prefetchInitSegment st iref = Except.ok st' := by
  unfold SegmentPrefetch.prefetchInitSegment
  rw [if_pos hl]
  cases st.stream_.segmentIndex
  · exact ⟨st, rfl⟩
  · exact ⟨_, rfl⟩

/-! ### `prefetchStep` lemmas -/

theorem prefetchStep_ok {st : SegmentPrefetch} {r : SegmentReference}
    {st3 : SegmentPrefetch}
    (h : SegmentPrefetch.prefetchStep st r = Except.ok st3) :
    st3.prefetchLimit_ = st.prefetchLimit_ ∧
    st3.stream_ = st.stream_ ∧
    st3.deleteOnGet_ = st.deleteOnGet_ ∧
    st3.fetchDispatcher_ = st.fetchDispatcher_ ∧
    st3.abortLog = st.abortLog ∧
    st3.prefetchPosTime_ = r.startTime ∧
    st3.scannedLog = st.scannedLog ++ [r] ∧
    (st3.segmentPrefetchMap_ = st.segmentPrefetchMap_ ∨
      (mapGet st.segmentPrefetchMap_ r = none ∧ ∃ op,
        st3.segmentPrefetchMap_ = st.segmentPrefetchMap_ ++ [(r, op)])) ∧
    ((st.initSegmentPrefetchMap_.map Prod.fst).Nodup →
      (st3.initSegmentPrefetchMap_.map Prod.fst).Nodup) := by
  unfold SegmentPrefetch.prefetchStep at h
  dsimp only at h
  split at h
  · exact absurd h (by simp)
  next st1 hs =>
    injection h with h
    subst h
    have hst1 : st1.segmentPrefetchMap_ = st.segmentPrefetchMap_ ∧
        st1.prefetchLimit_ = st.prefetchLimit_ ∧
        st1.stream_ = st.stream_ ∧
        st1.prefetchPosTime_ = st.prefetchPosTime_ ∧
        st1.deleteOnGet_ = st.deleteOnGet_ ∧
        st1.fetchDispatcher_ = st.fetchDispatcher_ ∧
        st1.scannedLog = st.scannedLog ∧
        st1.abortLog = st.abortLog ∧
        ((st.initSegmentPrefetchMap_.map Prod.fst).Nodup →
          (st1.initSegmentPrefetchMap_.map Prod.fst).Nodup) := by
      by_cases hpa : prefetchAllowed r = true
      · rw [if_pos hpa] at hs
        cases hir : r.initSegmentReference with
        | some iref =>
          rw [hir] at hs
          obtain ⟨a1, a2, a3, a4, a5, a6, a7, a8, a9⟩ := prefetchInitSegment_ok hs
          refine ⟨a1, a2, a3, a4, a5, a6, a7, a8, ?_⟩
          intro hnd
          rcases a9 with h1 | ⟨hnone, op, h1⟩
          · rw [h1]; exact hnd
          · rw [h1, List.map_append]
            have hnotmem : iref ∉ st.initSegmentPrefetchMap_.map Prod.fst :=
              notMem_of_mapGet_none hnone
            refine List.nodup_append.mpr ⟨hnd, by simp, ?_⟩
            intro a ha hb
            simp only [List.map_cons, List.map_nil, List.mem_singleton] at hb
            rw [hb] at ha
            exact hnotmem ha
        | none =>
          rw [hir] at hs
          injection hs with hs
          subst hs
          exact ⟨rfl, rfl, rfl, rfl, rfl, rfl, rfl, rfl, id⟩
      · rw [if_neg hpa] at hs
        injection hs with hs
        subst hs
        exact ⟨rfl, rfl, rfl, rfl, rfl, rfl, rfl, rfl, id⟩
    obtain ⟨b1, b2, b3, b4, b5, b6, b7, b8, b9⟩ := hst1
    by_cases hd : (prefetchAllowed r && !(mapHas st1.segmentPrefetchMap_ r)) = true
    · rw [if_pos hd]
      simp only [Bool.and_eq_true] at hd
      refine ⟨b2, b3, b5, b6, b8, rfl, ?_, ?_, b9⟩
      · show st1.scannedLog ++ [r] = st.scannedLog ++ [r]
        rw [b7]
      · have hnothas : mapGet st1.segmentPrefetchMap_ r = none := by
          rcases hd with ⟨_, h2⟩
          rcases hg : mapGet st1.segmentPrefetchMap_ r with _ | v
          · rfl
          · rw [mapHas, hg] at h2; simp at h2
        have hnone : mapGet st.segmentPrefetchMap_ r = none := by
          rw [← b1]; exact hnothas
        refine Or.inr ⟨hnone, SegmentPrefetch.newDispatchedOperation st1, ?_⟩
        show mapSet st1.segmentPrefetchMap_ r (SegmentPrefetch.newDispatchedOperation st1) =
          st.segmentPrefetchMap_ ++ [(r, SegmentPrefetch.newDispatchedOperation st1)]
        rw [mapSet_of_get_none _ hnothas, b1]
    · rw [if_neg hd]
      refine ⟨b2, b3, b5, b6, b8, rfl, ?_, Or.inl b1, b9⟩
      show st1.scannedLog ++ [r] = st.scannedLog ++ [r]
      rw [b7]

/-! ### `prefetchLoop` lemmas -/

theorem prefetchLoop_facts : ∀ (l : List SegmentReference) (st st' : SegmentPrefetch),
    SegmentPrefetch.prefetchLoop st l = Except.ok st' →
    st'.prefetchLimit_ = st.prefetchLimit_ ∧
    st'.stream_ = st.stream_ ∧
    st'.deleteOnGet_ = st.deleteOnGet_ ∧
    st'.fetchDispatcher_ = st.fetchDispatcher_ ∧
    st'.abortLog = st.abortLog ∧
    (∀ r2 op, mapGet st.segmentPrefetchMap_ r2 = some op →
      mapGet st'.segmentPrefetchMap_ r2 = some op) ∧
    ((st.segmentPrefetchMap_.map Prod.fst).Nodup →
      (st'.segmentPrefetchMap_.map Prod.fst).Nodup) ∧
    ((st.initSegmentPrefetchMap_.map Prod.fst).Nodup →
      (st'.initSegmentPrefetchMap_.map Prod.fst).Nodup) ∧
    ((st.segmentPrefetchMap_.length : Int) ≤ st.prefetchLimit_ →
      (st'.segmentPrefetchMap_.length : Int) ≤ st.prefetchLimit_) := by
  intro l
  induction l with
  | nil =>
    intro st st' h
    injection h with h
    subst h
    exact ⟨rfl, rfl, rfl, rfl, rfl, fun _ _ hg => hg, id, id, id⟩
  | cons r rest ih =>
    intro st st' h
    rw [show SegmentPrefetch.prefetchLoop st (r :: rest) =
      (if (st.segmentPrefetchMap_.length : Int) < st.prefetchLimit_ then
        match SegmentPrefetch.prefetchStep st r with
        | Except.error e => Except.error e
        | Except.ok st3 =>
          if st3.stream_.fastSwitching && SegmentReference.isPartial r &&
              SegmentReference.isLastPartial r then
            Except.ok st3
          else SegmentPrefetch.prefetchLoop st3 rest
      else Except.ok st) from rfl] at h
    by_cases hsz : (st.segmentPrefetchMap_.length : Int) < st.prefetchLimit_
    · rw [if_pos hsz] at h
      cases hstep : SegmentPrefetch.prefetchStep st r with
      | error e => rw [hstep] at h; dsimp only at h; cases h
      | ok st3 =>
        rw [hstep] at h
        dsimp only at h
        obtain ⟨c1, c2, c3, c4, c5, _, _, c8, c9⟩ := prefetchStep_ok hstep
        have hmedia3 : (∀ r2 op, mapGet st.segmentPrefetchMap_ r2 = some op →
            mapGet st3.segmentPrefetchMap_ r2 = some op) ∧
            ((st.segmentPrefetchMap_.map Prod.fst).Nodup →
              (st3.segmentPrefetchMap_.map Prod.fst).Nodup) ∧
            ((st3.segmentPrefetchMap_.length : Int) ≤ st.segmentPrefetchMap_.length + 1) := by
          rcases c8 with h1 | ⟨hnone, op, h1⟩
          · rw [h1]
            exact ⟨fun _ _ hg => hg, id, by omega⟩
          · rw [h1]
            refine ⟨fun r2 op2 hg => mapGet_append_left _ hg, ?_, by simp⟩
            intro hnd
            rw [List.map_append]
            refine List.nodup_append.mpr ⟨hnd, by simp, ?_⟩
            intro a ha hb
            simp only [List.map_cons, List.map_nil, List.mem_singleton] at hb
            rw [hb] at ha
            exact notMem_of_mapGet_none hnone ha
        by_cases hbrk : (st3.stream_.fastSwitching && SegmentReference.isPartial r &&
            SegmentReference.isLastPartial r) = true
        · rw [if_pos hbrk] at h
          injection h with h
          subst h
          exact ⟨c1, c2, c3, c4, c5, hmedia3.1, hmedia3.2.1, c9,
            fun _ => by have := hmedia3.2.2; omega⟩
        · rw [if_neg hbrk] at h
          obtain ⟨d1, d2, d3, d4, d5, d6, d7, d8, d9⟩ := ih st3 st' h
          refine ⟨d1.trans c1, d2.trans c2, d3.trans c3, d4.trans c4, d5.trans c5,
            fun r2 op hg => d6 r2 op (hmedia3.1 r2 op hg),
            fun hnd => d7 (hmedia3.2.1 hnd), fun hnd => d8 (c9 hnd), ?_⟩
          intro _
          have hb3 : (st3.segmentPrefetchMap_.length : Int) ≤ st3.prefetchLimit_ := by
            rw [c1]
            have := hmedia3.2.2
            omega
          have := d9 hb3
          rw [c1] at this
          exact this
    · rw [if_neg hsz] at h
      injection h with h
      subst h
      exact ⟨rfl, rfl, rfl, rfl, rfl, fun _ _ hg => hg, id, id, id⟩

/-! ### Ordering lemmas for the iterator contract -/

theorem sortedByStart_tail {a : SegmentReference} {l : List SegmentReference}
    (h : sortedByStart (a :: l) = true) : sortedByStart l = true := by
  cases l with
  | nil => rfl
  | cons b t =>
    have h2 := h
    rw [show sortedByStart (a :: b :: t) =
      (decide (a.startTime ≤ b.startTime) && sortedByStart (b :: t)) from rfl] at h2
    exact (Bool.and_eq_true _ _ ▸ h2).2

theorem sortedByStart_head_le {a : SegmentReference} {l : List SegmentReference}
    (h : sortedByStart (a :: l) = true) :
    ∀ r ∈ l, a.startTime ≤ r.startTime := by
  induction l generalizing a with
  | nil => simp
  | cons b t ih =>
    have h2 := h
    rw [show sortedByStart (a :: b :: t) =
      (decide (a.startTime ≤ b.startTime) && sortedByStart (b :: t)) from rfl] at h2
    have hab : a.startTime ≤ b.startTime := by
      have := (Bool.and_eq_true _ _ ▸ h2).1
      exact of_decide_eq_true this
    intro r hr
    rcases List.mem_cons.mp hr with h1 | h1
    · rw [h1]; exact hab
    · exact le_trans hab (ih (sortedByStart_tail h) r h1)

theorem sortedByStart_dropWhile (p : SegmentReference → Bool)
    {l : List SegmentReference} (h : sortedByStart l = true) :
    sortedByStart (l.dropWhile p) = true := by
  induction l with
  | nil => rfl
  | cons a t ih =>
    rw [List.dropWhile_cons]
    by_cases hp : p a = true
    · rw [if_pos hp]
      exact ih (sortedByStart_tail h)
    · rw [if_neg hp]
      exact h

theorem mem_dropWhile_ge (t : Rat) {l : List SegmentReference}
    (h : sortedByStart l = true) :
    ∀ r ∈ l.dropWhile (fun x => decide (x.startTime < t)), t ≤ r.startTime := by
  induction l with
  | nil => simp
  | cons a tl ih =>
    rw [List.dropWhile_cons]
    by_cases hp : a.startTime < t
    · rw [if_pos (by simpa using hp)]
      exact ih (sortedByStart_tail h)
    · rw [if_neg (by simpa using hp)]
      intro r hr
      rcases List.mem_cons.mp hr with h1 | h1
      · rw [h1]; exact le_of_not_lt hp
      · exact le_trans (le_of_not_lt hp) (sortedByStart_head_le h r h1)

theorem sortedByStart_drop_one {l : List SegmentReference}
    (h : sortedByStart l = true) : sortedByStart (l.drop 1) = true := by
  cases l with
  | nil => rfl
  | cons a t => exact sortedByStart_tail h

theorem prefetchLoop_invB : ∀ (l : List SegmentReference) (st st' : SegmentPrefetch),
    sortedByStart l = true →
    (∀ r ∈ l, st.prefetchPosTime_ ≤ r.startTime) →
    (∀ r ∈ st.scannedLog, r.startTime ≤ st.prefetchPosTime_) →
    (∀ p ∈ st.segmentPrefetchMap_, p.1.startTime ≤ st.prefetchPosTime_) →
    SegmentPrefetch.prefetchLoop st l = Except.ok st' →
    (∀ r ∈ st'.scannedLog, r.startTime ≤ st'.prefetchPosTime_) ∧
    (∀ p ∈ st'.segmentPrefetchMap_, p.1.startTime ≤ st'.prefetchPosTime_) ∧
    st.prefetchPosTime_ ≤ st'.prefetchPosTime_ := by
  intro l
  induction l with
  | nil =>
    intro st st' _ _ hscan hmed h
    injection h with h
    subst h
    exact ⟨hscan, hmed, le_refl _⟩
  | cons r rest ih =>
    intro st st' hsort hge hscan hmed h
    rw [show SegmentPrefetch.prefetchLoop st (r :: rest) =
      (if (st.segmentPrefetchMap_.length : Int) < st.prefetchLimit_ then
        match SegmentPrefetch.prefetchStep st r with
        | Except.error e => Except.error e
        | Except.ok st3 =>
          if st3.stream_.fastSwitching && SegmentReference.isPartial r &&
              SegmentReference.isLastPartial r then
            Except.ok st3
          else SegmentPrefetch.prefetchLoop st3 rest
      else Except.ok st) from rfl] at h
    by_cases hsz : (st.segmentPrefetchMap_.length : Int) < st.prefetchLimit_
    · rw [if_pos hsz] at h
      cases hstep : SegmentPrefetch.prefetchStep st r with
      | error e => rw [hstep] at h; dsimp only at h; cases h
      | ok st3 =>
        rw [hstep] at h
        dsimp only at h
        obtain ⟨_, _, _, _, _, c6, c7, c8, _⟩ := prefetchStep_ok hstep
        have hrge : st.prefetchPosTime_ ≤ r.startTime := hge r (List.mem_cons_self r rest)
        have hscan3 : ∀ r2 ∈ st3.scannedLog, r2.startTime ≤ st3.prefetchPosTime_ := by
          rw [c7, c6]
          intro r2 hr2
          rcases List.mem_append.mp hr2 with h1 | h1
          · exact le_trans (hscan r2 h1) hrge
          · simp only [List.mem_singleton] at h1
            rw [h1]
        have hmed3 : ∀ p ∈ st3.segmentPrefetchMap_, p.1.startTime ≤ st3.prefetchPosTime_ := by
          rw [c6]
          rcases c8 with h1 | ⟨_, op, h1⟩ <;> rw [h1] <;> intro p hp
          · exact le_trans (hmed p hp) hrge
          · rcases List.mem_append.mp hp with h2 | h2
            · exact le_trans (hmed p h2) hrge
            · simp only [List.mem_singleton] at h2
              rw [h2]
        have hpos3 : st.prefetchPosTime_ ≤ st3.prefetchPosTime_ := by
          rw [c6]; exact hrge
        by_cases hbrk : (st3.stream_.fastSwitching && SegmentReference.isPartial r &&
            SegmentReference.isLastPartial r) = true
        · rw [if_pos hbrk] at h
          injection h with h
          subst h
          exact ⟨hscan3, hmed3, hpos3⟩
        · rw [if_neg hbrk] at h
          have hge3 : ∀ r2 ∈ rest, st3.prefetchPosTime_ ≤ r2.startTime := by
            rw [c6]
            exact fun r2 hr2 => sortedByStart_head_le hsort r2 hr2
          obtain ⟨d1, d2, d3⟩ := ih st3 st' (sortedByStart_tail hsort) hge3 hscan3 hmed3 h
          exact ⟨d1, d2, le_trans hpos3 d3⟩
    · rw [if_neg hsz] at h
      injection h with h
      subst h
      exact ⟨hscan, hmed, le_refl _⟩

/-! ### `prefetchSegmentsByTime` case analysis -/

theorem prefetchSBT_ok_cases {st : SegmentPrefetch} {t : Rat} {sf : Bool}
    {st' : SegmentPrefetch}
    (h : SegmentPrefetch.prefetchSegmentsByTime st t sf = Except.ok st') :
    0 < st.prefetchLimit_ ∧
    (st' = st ∨ ∃ refs st2,
      st.stream_.segmentIndex = some refs ∧
      sbtRemaining st t sf refs ≠ [] ∧
      SegmentPrefetch.prefetchLoop st (sbtRemaining st t sf refs) = Except.ok st2 ∧
      st' = SegmentPrefetch.clearInitSegments_ st2) := by
  unfold SegmentPrefetch.prefetchSegmentsByTime at h
  by_cases hl : 0 < st.prefetchLimit_
  · rw [if_pos hl] at h
    refine ⟨hl, ?_⟩
    cases hidx : st.stream_.segmentIndex with
    | none =>
      rw [hidx] at h
      dsimp only at h
      injection h with h
      exact Or.inl h.symm
    | some refs =>
      rw [hidx] at h
      dsimp only at h
      cases hrem : (if sf then
          (getIteratorForTime (max t st.prefetchPosTime_) refs).drop 1
        else getIteratorForTime (max t st.prefetchPosTime_) refs) with
      | nil =>
        rw [hrem] at h
        dsimp only at h
        injection h with h
        exact Or.inl h.symm
      | cons r0 rest0 =>
        rw [hrem] at h
        dsimp only at h
        cases hloop : SegmentPrefetch.prefetchLoop st (r0 :: rest0) with
        | error e =>
          rw [hloop] at h
          dsimp only at h
          cases h
        | ok st2 =>
          rw [hloop] at h
          dsimp only at h
          injection h with h
          refine Or.inr ⟨refs, st2, rfl, ?_, ?_, h.symm⟩
          · show (if sf then
                (getIteratorForTime (max t st.prefetchPosTime_) refs).drop 1
              else getIteratorForTime (max t st.prefetchPosTime_) refs) ≠ []
            rw [hrem]
            simp
          · show SegmentPrefetch.prefetchLoop st (if sf then
                (getIteratorForTime (max t st.prefetchPosTime_) refs).drop 1
              else getIteratorForTime (max t st.prefetchPosTime_) refs) = Except.ok st2
            rw [hrem]
            exact hloop
  · rw [if_neg hl] at h
    cases h

/-! ### `getPrefetchedSegment` effect lemma -/

theorem keys_mapValues {α β : Type} [DecidableEq α] (m : List (α × β))
    (f : α × β → β) :
    ((m.map (fun p => (p.1, f p))).map Prod.fst) = m.map Prod.fst := by
  induction m with
  | nil => rfl
  | cons p rest ih => simp [ih]

theorem getPrefetched_ok {st : SegmentPrefetch} {ref : PrefetchKey} {cb : Option Nat}
    {res : SegmentPrefetch × Option Nat}
    (h : SegmentPrefetch.getPrefetchedSegment st ref cb = Except.ok res) :
    res.1.prefetchLimit_ = st.prefetchLimit_ ∧
    res.1.stream_ = st.stream_ ∧
    res.1.prefetchPosTime_ = st.prefetchPosTime_ ∧
    res.1.deleteOnGet_ = st.deleteOnGet_ ∧
    res.1.fetchDispatcher_ = st.fetchDispatcher_ ∧
    res.1.scannedLog = st.scannedLog ∧
    res.1.abortLog = st.abortLog ∧
    List.Sublist (res.1.segmentPrefetchMap_.map Prod.fst)
      (st.segmentPrefetchMap_.map Prod.fst) ∧
    List.Sublist (res.1.initSegmentPrefetchMap_.map Prod.fst)
      (st.initSegmentPrefetchMap_.map Prod.fst) := by
  unfold SegmentPrefetch.getPrefetchedSegment at h
  by_cases hl : 0 < st.prefetchLimit_
  · rw [if_pos hl] at h
    rcases ref with r | ir
    · dsimp only at h
      cases hg : mapGet st.segmentPrefetchMap_ r with
      | none =>
        rw [hg] at h
        dsimp only at h
        injection h with h
        subst h
        exact ⟨rfl, rfl, rfl, rfl, rfl, rfl, rfl, List.Sublist.refl _, List.Sublist.refl _⟩
      | some op =>
        rw [hg] at h
        dsimp only at h
        by_cases hc : cb.isSome = true
        · simp only [if_pos hc] at h
          by_cases hdog : st.deleteOnGet_ = true
          · simp only [if_pos hdog] at h
            injection h with h
            subst h
            refine ⟨rfl, rfl, rfl, rfl, rfl, rfl, rfl, ?_, List.Sublist.refl _⟩
            show List.Sublist ((mapDelete (mapSet st.segmentPrefetchMap_ r
              (SegmentPrefetchOperation.setStreamDataCallback op cb)) r).map Prod.fst)
              (st.segmentPrefetchMap_.map Prod.fst)
            rw [← keys_mapSet_of_get_some
              (SegmentPrefetchOperation.setStreamDataCallback op cb) hg]
            exact (mapDelete_sublist _ _).map Prod.fst
          · simp only [if_neg hdog] at h
            injection h with h
            subst h
            refine ⟨rfl, rfl, rfl, rfl, rfl, rfl, rfl, ?_, List.Sublist.refl _⟩
            show List.Sublist ((mapSet st.segmentPrefetchMap_ r
              (SegmentPrefetchOperation.setStreamDataCallback op cb)).map Prod.fst)
              (st.segmentPrefetchMap_.map Prod.fst)
            rw [keys_mapSet_of_get_some
              (SegmentPrefetchOperation.setStreamDataCallback op cb) hg]
        · simp only [if_neg hc] at h
          by_cases hdog : st.deleteOnGet_ = true
          · simp only [if_pos hdog] at h
            injection h with h
            subst h
            refine ⟨rfl, rfl, rfl, rfl, rfl, rfl, rfl, ?_, List.Sublist.refl _⟩
            show List.Sublist ((mapDelete st.segmentPrefetchMap_ r).map Prod.fst)
              (st.segmentPrefetchMap_.map Prod.fst)
            exact (mapDelete_sublist _ _).map Prod.fst
          · simp only [if_neg hdog] at h
            injection h with h
            subst h
            exact ⟨rfl, rfl, rfl, rfl, rfl, rfl, rfl, List.Sublist.refl _,
              List.Sublist.refl _⟩
    · dsimp only at h
      cases hg : mapGet st.initSegmentPrefetchMap_ ir with
      | none =>
        rw [hg] at h
        dsimp only at h
        injection h with h
        subst h
        exact ⟨rfl, rfl, rfl, rfl, rfl, rfl, rfl, List.Sublist.refl _, List.Sublist.refl _⟩
      | some op =>
        rw [hg] at h
        dsimp only at h
        by_cases hc : cb.isSome = true
        · simp only [if_pos hc] at h
          by_cases hdog : st.deleteOnGet_ = true
          · simp only [if_pos hdog] at h
            injection h with h
            subst h
            refine ⟨rfl, rfl, rfl, rfl, rfl, rfl, rfl, List.Sublist.refl _, ?_⟩
            show List.Sublist ((mapDelete (mapSet st.initSegmentPrefetchMap_ ir
              (SegmentPrefetchOperation.setStreamDataCallback op cb)) ir).map Prod.fst)
              (st.initSegmentPrefetchMap_.map Prod.fst)
            rw [← keys_mapSet_of_get_some
              (SegmentPrefetchOperation.setStreamDataCallback op cb) hg]
            exact (mapDelete_sublist _ _).map Prod.fst
          · simp only [if_neg hdog] at h
            injection h with h
            subst h
            refine ⟨rfl, rfl, rfl, rfl, rfl, rfl, rfl, List.Sublist.refl _, ?_⟩
            show List.Sublist ((mapSet st.initSegmentPrefetchMap_ ir
              (SegmentPrefetchOperation.setStreamDataCallback op cb)).map Prod.fst)
              (st.initSegmentPrefetchMap_.map Prod.fst)
            rw [keys_mapSet_of_get_some
              (SegmentPrefetchOperation.setStreamDataCallback op cb) hg]
        · simp only [if_neg hc] at h
          by_cases hdog : st.deleteOnGet_ = true
          · simp only [if_pos hdog] at h
            injection h with h
            subst h
            refine ⟨rfl, rfl, rfl, rfl, rfl, rfl, rfl, List.Sublist.refl _, ?_⟩
            show List.Sublist ((mapDelete st.initSegmentPrefetchMap_ ir).map Prod.fst)
              (st.initSegmentPrefetchMap_.map Prod.fst)
            exact (mapDelete_sublist _ _).map Prod.fst
          · simp only [if_neg hdog] at h
            injection h with h
            subst h
            exact ⟨rfl, rfl, rfl, rfl, rfl, rfl, rfl, List.Sublist.refl _,
              List.Sublist.refl _⟩
  · rw [if_neg hl] at h
    cases h

/-! ### `resetPopRev` frame (no key-uniqueness needed) -/

theorem resetPopRev_frame (n : Int) : ∀ (ks : List SegmentReference)
    (st : SegmentPrefetch),
    (SegmentPrefetch.resetPopRev n st ks).prefetchLimit_ = st.prefetchLimit_ ∧
    (SegmentPrefetch.resetPopRev n st ks).stream_ = st.stream_ ∧
    (SegmentPrefetch.resetPopRev n st ks).prefetchPosTime_ = st.prefetchPosTime_ ∧
    (SegmentPrefetch.resetPopRev n st ks).deleteOnGet_ = st.deleteOnGet_ ∧
    (SegmentPrefetch.resetPopRev n st ks).fetchDispatcher_ = st.fetchDispatcher_ ∧
    (SegmentPrefetch.resetPopRev n st ks).scannedLog = st.scannedLog ∧
    (SegmentPrefetch.resetPopRev n st ks).initSegmentPrefetchMap_ =
      st.initSegmentPrefetchMap_ ∧
    List.Sublist (SegmentPrefetch.resetPopRev n st ks).segmentPrefetchMap_
      st.segmentPrefetchMap_ := by
  intro ks
  induction ks with
  | nil =>
    intro st
    exact ⟨rfl, rfl, rfl, rfl, rfl, rfl, rfl, List.Sublist.refl _⟩
  | cons k rest ih =>
    intro st
    rw [show SegmentPrefetch.resetPopRev n st (k :: rest) =
      (if ((rest.length : Int) + 1 > n) then
        SegmentPrefetch.resetPopRev n
          (SegmentPrefetch.abortPrefetchedSegment_ st (Sum.inl k)) rest
      else st) from rfl]
    by_cases hc : ((rest.length : Int) + 1 > n)
    · rw [if_pos hc]
      obtain ⟨f1, f2, f3, f4, f5, f6, f7⟩ :=
        abort_frame st (Sum.inl k)
      obtain ⟨g1, g2, g3, g4, g5, g6, g7, g8⟩ :=
        ih (SegmentPrefetch.abortPrefetchedSegment_ st (Sum.inl k))
      refine ⟨g1.trans f1, g2.trans f2, g3.trans f3, g4.trans f4, g5.trans f5,
        g6.trans f6, g7.trans (abort_inl_maps st k).2, g8.trans ?_⟩
      rw [(abort_inl_maps st k).1]
      exact mapDelete_sublist _ _
    · rw [if_neg hc]
      exact ⟨rfl, rfl, rfl, rfl, rfl, rfl, rfl, List.Sublist.refl _⟩

/-! ### Composed per-operation fact lemmas -/

theorem nodup_keys_append_new {α β : Type} [DecidableEq α] {m : List (α × β)}
    {k : α} (op : β) (hnone : mapGet m k = none)
    (hnd : (m.map Prod.fst).Nodup) :
    (((m ++ [(k, op)]).map Prod.fst)).Nodup := by
  rw [List.map_append]
  refine List.nodup_append.mpr ⟨hnd, by simp, ?_⟩
  intro a ha hb
  simp only [List.map_cons, List.map_nil, List.mem_singleton] at hb
  rw [hb] at ha
  exact notMem_of_mapGet_none hnone ha

theorem clearInitSegments_facts (st : SegmentPrefetch) :
    (SegmentPrefetch.clearInitSegments_ st).segmentPrefetchMap_ =
      st.segmentPrefetchMap_ ∧
    (SegmentPrefetch.clearInitSegments_ st).prefetchLimit_ = st.prefetchLimit_ ∧
    (SegmentPrefetch.clearInitSegments_ st).prefetchPosTime_ = st.prefetchPosTime_ ∧
    (SegmentPrefetch.clearInitSegments_ st).stream_ = st.stream_ ∧
    (SegmentPrefetch.clearInitSegments_ st).deleteOnGet_ = st.deleteOnGet_ ∧
    (SegmentPrefetch.clearInitSegments_ st).fetchDispatcher_ = st.fetchDispatcher_ ∧
    (SegmentPrefetch.clearInitSegments_ st).scannedLog = st.scannedLog ∧
    List.Sublist (SegmentPrefetch.clearInitSegments_ st).initSegmentPrefetchMap_
      st.initSegmentPrefetchMap_ ∧
    ∃ ext, (SegmentPrefetch.clearInitSegments_ st).abortLog = st.abortLog ++ ext ∧
      ∀ x ∈ ext, ∃ i, x = Sum.inr i := by
  obtain ⟨f1, f2, f3, f4, f5, f6, f7, _⟩ :=
    clearInitLoop_frame (st.segmentPrefetchMap_.map Prod.fst)
      (st.initSegmentPrefetchMap_.map Prod.fst) st
  obtain ⟨g1, g2⟩ :=
    clearInitLoop_shrink (st.segmentPrefetchMap_.map Prod.fst)
      (st.initSegmentPrefetchMap_.map Prod.fst) st
  exact ⟨f1, f2, f3, f4, f5, f6, f7, g1, g2⟩

theorem evict_facts (st : SegmentPrefetch) (t : Rat) :
    (SegmentPrefetch.evict st t).prefetchLimit_ = st.prefetchLimit_ ∧
    (SegmentPrefetch.evict st t).prefetchPosTime_ = st.prefetchPosTime_ ∧
    (SegmentPrefetch.evict st t).stream_ = st.stream_ ∧
    (SegmentPrefetch.evict st t).deleteOnGet_ = st.deleteOnGet_ ∧
    (SegmentPrefetch.evict st t).fetchDispatcher_ = st.fetchDispatcher_ ∧
    (SegmentPrefetch.evict st t).scannedLog = st.scannedLog ∧
    List.Sublist (SegmentPrefetch.evict st t).segmentPrefetchMap_
      st.segmentPrefetchMap_ ∧
    List.Sublist (SegmentPrefetch.evict st t).initSegmentPrefetchMap_
      st.initSegmentPrefetchMap_ := by
  have heq : SegmentPrefetch.evict st t = SegmentPrefetch.clearInitSegments_
      (SegmentPrefetch.evictLoop t st (st.segmentPrefetchMap_.map Prod.fst)) := rfl
  set st1 := SegmentPrefetch.evictLoop t st (st.segmentPrefetchMap_.map Prod.fst)
    with hst1
  obtain ⟨e1, e2, e3, e4, e5, e6, e7, _, e9⟩ :=
    evictLoop_frame t (st.segmentPrefetchMap_.map Prod.fst) st
  obtain ⟨c1, c2, c3, c4, c5, c6, c7, c8, _⟩ := clearInitSegments_facts st1
  rw [heq]
  refine ⟨c2.trans e2, c3.trans e3, c4.trans e4, c5.trans e5, c6.trans e6,
    c7.trans e7, ?_, c8.trans (by rw [e1])⟩
  rw [c1]
  exact e9

theorem resetLimit_ok_facts {st : SegmentPrefetch} {n : Int} {st' : SegmentPrefetch}
    (h : SegmentPrefetch.resetLimit st n = Except.ok st') :
    0 ≤ n ∧
    st'.prefetchLimit_ = n ∧
    st'.prefetchPosTime_ = st.prefetchPosTime_ ∧
    st'.stream_ = st.stream_ ∧
    st'.deleteOnGet_ = st.deleteOnGet_ ∧
    st'.fetchDispatcher_ = st.fetchDispatcher_ ∧
    st'.scannedLog = st.scannedLog ∧
    List.Sublist st'.segmentPrefetchMap_ st.segmentPrefetchMap_ ∧
    List.Sublist st'.initSegmentPrefetchMap_ st.initSegmentPrefetchMap_ := by
  unfold SegmentPrefetch.resetLimit at h
  by_cases hn : 0 ≤ n
  · rw [if_pos hn] at h
    dsimp only at h
    injection h with h
    set st1 : SegmentPrefetch := { st with prefetchLimit_ := n } with hst1
    set st2 := SegmentPrefetch.resetPopRev n st1
      ((st1.segmentPrefetchMap_.map Prod.fst).reverse) with hst2
    obtain ⟨p1, p2, p3, p4, p5, p6, p7, p8⟩ :=
      resetPopRev_frame n ((st1.segmentPrefetchMap_.map Prod.fst).reverse) st1
    obtain ⟨c1, c2, c3, c4, c5, c6, c7, c8, _⟩ := clearInitSegments_facts st2
    subst h
    refine ⟨hn, c2.trans p1, c3.trans p3, c4.trans p2, c5.trans p4, c6.trans p5,
      c7.trans p6, ?_, ?_⟩
    · rw [c1]
      exact p8
    · exact c8.trans (by rw [p7])
  · rw [if_neg hn] at h
    cases h

theorem resetLimit_ok_media {st : SegmentPrefetch} {n : Int} {st' : SegmentPrefetch}
    (h : SegmentPrefetch.resetLimit st n = Except.ok st')
    (hnd : (st.segmentPrefetchMap_.map Prod.fst).Nodup) :
    st'.segmentPrefetchMap_ = st.segmentPrefetchMap_.take n.toNat := by
  unfold SegmentPrefetch.resetLimit at h
  by_cases hn : 0 ≤ n
  · rw [if_pos hn] at h
    dsimp only at h
    injection h with h
    subst h
    have hspec := resetPopRev_spec n st.segmentPrefetchMap_
      { st with prefetchLimit_ := n } rfl hnd
    rw [(clearInitSegments_facts _).1, hspec]
  · rw [if_neg hn] at h
    cases h

theorem switchStream_ok_cases {st : SegmentPrefetch} {s : Option Stream}
    {st' : SegmentPrefetch}
    (h : SegmentPrefetch.switchStream st s = Except.ok st') :
    st.deleteOnGet_ = true ∧
    (st' = st ∨ ∃ s0, s = some s0 ∧ s0 ≠ st.stream_ ∧
      st' = { SegmentPrefetch.clearAll st with stream_ := s0 }) := by
  unfold SegmentPrefetch.switchStream at h
  by_cases hdog : st.deleteOnGet_ = true
  · rw [if_pos hdog] at h
    refine ⟨hdog, ?_⟩
    cases s with
    | none =>
      injection h with h
      exact Or.inl h.symm
    | some s0 =>
      dsimp only at h
      by_cases hne : s0 ≠ st.stream_
      · rw [if_pos hne] at h
        injection h with h
        exact Or.inr ⟨s0, rfl, hne, h.symm⟩
      · rw [if_neg hne] at h
        injection h with h
        exact Or.inl h.symm
  · rw [if_neg hdog] at h
    cases h

theorem chunkArrives_facts (st : SegmentPrefetch) (ref : PrefetchKey)
    (data : List Nat) :
    (SegmentPrefetch.chunkArrives st ref data).segmentPrefetchMap_.map Prod.fst =
      st.segmentPrefetchMap_.map Prod.fst ∧
    (SegmentPrefetch.chunkArrives st ref data).initSegmentPrefetchMap_.map Prod.fst =
      st.initSegmentPrefetchMap_.map Prod.fst ∧
    (SegmentPrefetch.chunkArrives st ref data).prefetchLimit_ = st.prefetchLimit_ ∧
    (SegmentPrefetch.chunkArrives st ref data).prefetchPosTime_ = st.prefetchPosTime_ ∧
    (SegmentPrefetch.chunkArrives st ref data).stream_ = st.stream_ ∧
    (SegmentPrefetch.chunkArrives st ref data).deleteOnGet_ = st.deleteOnGet_ ∧
    (SegmentPrefetch.chunkArrives st ref data).fetchDispatcher_ = st.fetchDispatcher_ ∧
    (SegmentPrefetch.chunkArrives st ref data).scannedLog = st.scannedLog ∧
    (SegmentPrefetch.chunkArrives st ref data).abortLog = st.abortLog := by
  rcases ref with r | ir
  · unfold SegmentPrefetch.chunkArrives
    dsimp only
    cases hg : mapGet st.segmentPrefetchMap_ r with
    | none =>
      dsimp only
      exact ⟨rfl, rfl, rfl, rfl, rfl, rfl, rfl, rfl, rfl⟩
    | some op =>
      dsimp only
      exact ⟨keys_mapSet_of_get_some _ hg, rfl, rfl, rfl, rfl, rfl, rfl, rfl, rfl⟩
  · unfold SegmentPrefetch.chunkArrives
    dsimp only
    cases hg : mapGet st.initSegmentPrefetchMap_ ir with
    | none =>
      dsimp only
      exact ⟨rfl, rfl, rfl, rfl, rfl, rfl, rfl, rfl, rfl⟩
    | some op =>
      dsimp only
      exact ⟨rfl, keys_mapSet_of_get_some _ hg, rfl, rfl, rfl, rfl, rfl, rfl, rfl⟩

theorem replaceFetchDispatcher_facts (st : SegmentPrefetch) (d : Nat) :
    (SegmentPrefetch.replaceFetchDispatcher st d).segmentPrefetchMap_.map Prod.fst =
      st.segmentPrefetchMap_.map Prod.fst ∧
    (SegmentPrefetch.replaceFetchDispatcher st d).initSegmentPrefetchMap_ =
      st.initSegmentPrefetchMap_ ∧
    (SegmentPrefetch.replaceFetchDispatcher st d).prefetchLimit_ = st.prefetchLimit_ ∧
    (SegmentPrefetch.replaceFetchDispatcher st d).prefetchPosTime_ =
      st.prefetchPosTime_ ∧
    (SegmentPrefetch.replaceFetchDispatcher st d).stream_ = st.stream_ ∧
    (SegmentPrefetch.replaceFetchDispatcher st d).deleteOnGet_ = st.deleteOnGet_ ∧
    (SegmentPrefetch.replaceFetchDispatcher st d).scannedLog = st.scannedLog ∧
    (SegmentPrefetch.replaceFetchDispatcher st d).abortLog = st.abortLog :=
  ⟨keys_mapValues _ _, rfl, rfl, rfl, rfl, rfl, rfl, rfl⟩

/-! ### `applyAction` unfolding lemmas -/

theorem applyAction_sbt_ok {st : SegmentPrefetch} {t : Rat} {sf : Bool}
    {st' : SegmentPrefetch}
    (h : SegmentPrefetch.prefetchSegmentsByTime st t sf = Except.ok st') :
    applyAction st (Action.prefetchSegmentsByTime t sf) = st' := by
  unfold applyAction
  dsimp only
  rw [h]

theorem applyAction_sbt_err {st : SegmentPrefetch} {t : Rat} {sf : Bool}
    {e : Unit} (h : SegmentPrefetch.prefetchSegmentsByTime st t sf = Except.error e) :
    applyAction st (Action.prefetchSegmentsByTime t sf) = st := by
  unfold applyAction
  dsimp only
  rw [h]

theorem applyAction_init_ok {st : SegmentPrefetch} {iref : InitSegmentReference}
    {st' : SegmentPrefetch}
    (h : SegmentPrefetch.prefetchInitSegment st iref = Except.ok st') :
    applyAction st (Action.prefetchInitSegment iref) = st' := by
  unfold applyAction
  dsimp only
  rw [h]

theorem applyAction_init_err {st : SegmentPrefetch} {iref : InitSegmentReference}
    {e : Unit} (h : SegmentPrefetch.prefetchInitSegment st iref = Except.error e) :
    applyAction st (Action.prefetchInitSegment iref) = st := by
  unfold applyAction
  dsimp only
  rw [h]

theorem applyAction_get_ok {st : SegmentPrefetch} {ref : PrefetchKey}
    {cb : Option Nat} {res : SegmentPrefetch × Option Nat}
    (h : SegmentPrefetch.getPrefetchedSegment st ref cb = Except.ok res) :
    applyAction st (Action.getPrefetchedSegment ref cb) = res.1 := by
  unfold applyAction
  dsimp only
  rw [h]

theorem applyAction_get_err {st : SegmentPrefetch} {ref : PrefetchKey}
    {cb : Option Nat} {e : Unit}
    (h : SegmentPrefetch.getPrefetchedSegment st ref cb = Except.error e) :
    applyAction st (Action.getPrefetchedSegment ref cb) = st := by
  unfold applyAction
  dsimp only
  rw [h]

theorem applyAction_reset_ok {st : SegmentPrefetch} {n : Int}
    {st' : SegmentPrefetch}
    (h : SegmentPrefetch.resetLimit st n = Except.ok st') :
    applyAction st (Action.resetLimit n) = st' := by
  unfold applyAction
  dsimp only
  rw [h]

theorem applyAction_reset_err {st : SegmentPrefetch} {n : Int} {e : Unit}
    (h : SegmentPrefetch.resetLimit st n = Except.error e) :
    applyAction st (Action.resetLimit n) = st := by
  unfold applyAction
  dsimp only
  rw [h]

theorem applyAction_switch_ok {st : SegmentPrefetch} {s : Option Stream}
    {st' : SegmentPrefetch}
    (h : SegmentPrefetch.switchStream st s = Except.ok st') :
    applyAction st (Action.switchStream s) = st' := by
  unfold applyAction
  dsimp only
  rw [h]

theorem applyAction_switch_err {st : SegmentPrefetch} {s : Option Stream}
    {e : Unit} (h : SegmentPrefetch.switchStream st s = Except.error e) :
    applyAction st (Action.switchStream s) = st := by
  unfold applyAction
  dsimp only
  rw [h]

theorem applyAction_evict (st : SegmentPrefetch) (t : Rat) :
    applyAction st (Action.evict t) = SegmentPrefetch.evict st t := rfl

theorem applyAction_dog (st : SegmentPrefetch) (b : Bool) :
    applyAction st (Action.deleteOnGet b) = SegmentPrefetch.deleteOnGet st b := rfl

theorem applyAction_clearAll (st : SegmentPrefetch) :
    applyAction st Action.clearAll = SegmentPrefetch.clearAll st := rfl

theorem applyAction_rfd (st : SegmentPrefetch) (d : Nat) :
    applyAction st (Action.replaceFetchDispatcher d) =
      SegmentPrefetch.replaceFetchDispatcher st d := rfl

theorem applyAction_chunk (st : SegmentPrefetch) (ref : PrefetchKey)
    (data : List Nat) :
    applyAction st (Action.chunkArrives ref data) =
      SegmentPrefetch.chunkArrives st ref data := rfl

/-! ### Invariant preservation -/

theorem invA_step (st : SegmentPrefetch) (a : Action)
    (hA : invKeys st ∧ invSize st) :
    invKeys (applyAction st a) ∧ invSize (applyAction st a) := by
  obtain ⟨⟨hK1, hK2⟩, hS⟩ := hA
  cases a with
  | prefetchSegmentsByTime t sf =>
    cases hres : SegmentPrefetch.prefetchSegmentsByTime st t sf with
    | error e => rw [applyAction_sbt_err hres]; exact ⟨⟨hK1, hK2⟩, hS⟩
    | ok st' =>
      rw [applyAction_sbt_ok hres]
      obtain ⟨hl, hcase⟩ := prefetchSBT_ok_cases hres
      rcases hcase with rfl | ⟨refs, st2, hidx, hne, hloop, rfl⟩
      · exact ⟨⟨hK1, hK2⟩, hS⟩
      · obtain ⟨d1, _, _, _, _, _, d7, d8, d9⟩ := prefetchLoop_facts _ _ _ hloop
        obtain ⟨c1, c2, _, _, _, _, _, c8, _⟩ := clearInitSegments_facts st2
        refine ⟨⟨by rw [c1]; exact d7 hK1,
          List.Nodup.sublist (c8.map Prod.fst) (d8 hK2)⟩, ?_⟩
        unfold invSize at hS ⊢
        rw [c1, c2, d1]
        have hmax : max st.prefetchLimit_ 0 = st.prefetchLimit_ :=
          max_eq_left (le_of_lt hl)
        rw [hmax] at hS
        rw [hmax]
        exact d9 hS
  | prefetchInitSegment iref =>
    cases hres : SegmentPrefetch.prefetchInitSegment st iref with
    | error e => rw [applyAction_init_err hres]; exact ⟨⟨hK1, hK2⟩, hS⟩
    | ok st' =>
      rw [applyAction_init_ok hres]
      obtain ⟨a1, a2, _, _, _, _, _, _, a9⟩ := prefetchInitSegment_ok hres
      refine ⟨⟨by rw [a1]; exact hK1, ?_⟩, ?_⟩
      · rcases a9 with h1 | ⟨hnone, op, h1⟩
        · rw [h1]; exact hK2
        · rw [h1]; exact nodup_keys_append_new op hnone hK2
      · unfold invSize at hS ⊢
        rw [a1, a2]
        exact hS
  | getPrefetchedSegment ref cb =>
    cases hres : SegmentPrefetch.getPrefetchedSegment st ref cb with
    | error e => rw [applyAction_get_err hres]; exact ⟨⟨hK1, hK2⟩, hS⟩
    | ok res =>
      rw [applyAction_get_ok hres]
      obtain ⟨g1, _, _, _, _, _, _, g8, g9⟩ := getPrefetched_ok hres
      refine ⟨⟨List.Nodup.sublist g8 hK1, List.Nodup.sublist g9 hK2⟩, ?_⟩
      unfold invSize at hS ⊢
      rw [g1]
      have hlen : res.1.segmentPrefetchMap_.length ≤ st.segmentPrefetchMap_.length := by
        have := g8.length_le
        simpa using this
      omega
  | evict t =>
    rw [applyAction_evict]
    obtain ⟨e1, _, _, _, _, _, e7, e8⟩ := evict_facts st t
    refine ⟨⟨List.Nodup.sublist (e7.map Prod.fst) hK1,
      List.Nodup.sublist (e8.map Prod.fst) hK2⟩, ?_⟩
    unfold invSize at hS ⊢
    rw [e1]
    have hlen := e7.length_le
    omega
  | resetLimit n =>
    cases hres : SegmentPrefetch.resetLimit st n with
    | error e => rw [applyAction_reset_err hres]; exact ⟨⟨hK1, hK2⟩, hS⟩
    | ok st' =>
      rw [applyAction_reset_ok hres]
      obtain ⟨hn, r2, _, _, _, _, _, r8, r9⟩ := resetLimit_ok_facts hres
      have hmedia := resetLimit_ok_media hres hK1
      refine ⟨⟨List.Nodup.sublist (r8.map Prod.fst) hK1,
        List.Nodup.sublist (r9.map Prod.fst) hK2⟩, ?_⟩
      unfold invSize
      rw [r2, hmedia]
      have hlen : (st.segmentPrefetchMap_.take n.toNat).length ≤ n.toNat := by
        simp [List.length_take]
      have : ((st.segmentPrefetchMap_.take n.toNat).length : Int) ≤ (n.toNat : Int) :=
        Int.ofNat_le.mpr hlen
      rw [Int.ofNat_toNat] at this
      exact this
  | deleteOnGet b =>
    rw [applyAction_dog]
    exact ⟨⟨hK1, hK2⟩, hS⟩
  | switchStream s =>
    cases hres : SegmentPrefetch.switchStream st s with
    | error e => rw [applyAction_switch_err hres]; exact ⟨⟨hK1, hK2⟩, hS⟩
    | ok st' =>
      rw [applyAction_switch_ok hres]
      obtain ⟨_, hcase⟩ := switchStream_ok_cases hres
      rcases hcase with rfl | ⟨s0, _, _, rfl⟩
      · exact ⟨⟨hK1, hK2⟩, hS⟩
      · obtain ⟨m1, m2, _, _, m5, _, _, _⟩ := clearAll_spec st
        constructor
        · constructor
          · show ((({ SegmentPrefetch.clearAll st with stream_ := s0 } :
              SegmentPrefetch)).segmentPrefetchMap_.map Prod.fst).Nodup
            rw [show ({ SegmentPrefetch.clearAll st with stream_ := s0 } :
              SegmentPrefetch).segmentPrefetchMap_ =
              (SegmentPrefetch.clearAll st).segmentPrefetchMap_ from rfl, m1]
            exact List.nodup_nil
          · show ((({ SegmentPrefetch.clearAll st with stream_ := s0 } :
              SegmentPrefetch)).initSegmentPrefetchMap_.map Prod.fst).Nodup
            rw [show ({ SegmentPrefetch.clearAll st with stream_ := s0 } :
              SegmentPrefetch).initSegmentPrefetchMap_ =
              (SegmentPrefetch.clearAll st).initSegmentPrefetchMap_ from rfl, m2]
            exact List.nodup_nil
        · unfold invSize
          rw [show ({ SegmentPrefetch.clearAll st with stream_ := s0 } :
            SegmentPrefetch).segmentPrefetchMap_ =
            (SegmentPrefetch.clearAll st).segmentPrefetchMap_ from rfl, m1]
          simp
  | clearAll =>
    rw [applyAction_clearAll]
    obtain ⟨m1, m2, _, _, _, _, _, _⟩ := clearAll_spec st
    refine ⟨⟨by rw [m1]; exact List.nodup_nil, by rw [m2]; exact List.nodup_nil⟩, ?_⟩
    unfold invSize
    rw [m1]
    simp
  | replaceFetchDispatcher d =>
    rw [applyAction_rfd]
    obtain ⟨f1, f2, f3, _, _, _, _, _⟩ := replaceFetchDispatcher_facts st d
    refine ⟨⟨by rw [f1]; exact hK1, by rw [f2]; exact hK2⟩, ?_⟩
    unfold invSize at hS ⊢
    rw [f3]
    have hlen : (SegmentPrefetch.replaceFetchDispatcher st d).segmentPrefetchMap_.length =
        st.segmentPrefetchMap_.length := by
      have := congrArg List.length f1
      simpa using this
    rw [hlen]
    exact hS
  | chunkArrives ref data =>
    rw [applyAction_chunk]
    obtain ⟨f1, f2, f3, _, _, _, _, _, _⟩ := chunkArrives_facts st ref data
    refine ⟨⟨by rw [f1]; exact hK1, by rw [f2]; exact hK2⟩, ?_⟩
    unfold invSize at hS ⊢
    rw [f3]
    have hlen : (SegmentPrefetch.chunkArrives st ref data).segmentPrefetchMap_.length =
        st.segmentPrefetchMap_.length := by
      have := congrArg List.length f1
      simpa using this
    rw [hlen]
    exact hS

theorem sbt_remaining_sorted_ge {st : SegmentPrefetch} {t : Rat} {sf : Bool}
    {refs : List SegmentReference} (hsorted : sortedByStart refs = true) :
    sortedByStart (sbtRemaining st t sf refs) = true ∧
    ∀ r ∈ sbtRemaining st t sf refs, st.prefetchPosTime_ ≤ r.startTime := by
  have hiter : sortedByStart (getIteratorForTime (max t st.prefetchPosTime_) refs) = true :=
    sortedByStart_dropWhile _ hsorted
  have hgeiter : ∀ r ∈ getIteratorForTime (max t st.prefetchPosTime_) refs,
      st.prefetchPosTime_ ≤ r.startTime := by
    intro r hr
    exact le_trans (le_max_right t st.prefetchPosTime_) (mem_dropWhile_ge _ hsorted r hr)
  unfold sbtRemaining
  by_cases hsf : sf = true
  · rw [if_pos hsf]
    exact ⟨sortedByStart_drop_one hiter,
      fun r hr => hgeiter r (List.drop_subset _ _ hr)⟩
  · rw [if_neg hsf]
    exact ⟨hiter, hgeiter⟩

theorem sbt_ok_invPos {st : SegmentPrefetch} {t : Rat} {sf : Bool}
    {st' : SegmentPrefetch}
    (hres : SegmentPrefetch.prefetchSegmentsByTime st t sf = Except.ok st')
    (hP : invPos st) :
    invPos st' ∧ st.prefetchPosTime_ ≤ st'.prefetchPosTime_ := by
  obtain ⟨hPs, hPscan, hPkeys⟩ := hP
  obtain ⟨hl, hcase⟩ := prefetchSBT_ok_cases hres
  rcases hcase with rfl | ⟨refs, st2, hidx, hne, hloop, rfl⟩
  · exact ⟨⟨hPs, hPscan, hPkeys⟩, le_refl _⟩
  · have hsorted : sortedByStart refs = true := by
      have hPs2 := hPs
      unfold streamSorted at hPs2
      rw [hidx] at hPs2
      exact hPs2
    obtain ⟨hremsort, hremge⟩ :=
      @sbt_remaining_sorted_ge st t sf _ hsorted
    have hmed : ∀ p ∈ st.segmentPrefetchMap_, p.1.startTime ≤ st.prefetchPosTime_ := by
      intro p hp
      exact hPkeys p.1 (List.mem_map_of_mem _ hp)
    obtain ⟨ib1, ib2, ib3⟩ :=
      prefetchLoop_invB _ _ _ hremsort hremge hPscan hmed hloop
    obtain ⟨_, d2, _, _, _, _, _, _, _⟩ := prefetchLoop_facts _ _ _ hloop
    obtain ⟨c1, _, c3, c4, _, _, c7, _, _⟩ := clearInitSegments_facts st2
    refine ⟨⟨?_, ?_, ?_⟩, ?_⟩
    · rw [c4, d2]; exact hPs
    · rw [c7, c3]; exact ib1
    · rw [c1, c3]
      intro k hk
      obtain ⟨p, hp, rfl⟩ := List.mem_map.mp hk
      exact ib2 p hp
    · rw [c3]; exact ib3

theorem invPos_step (st : SegmentPrefetch) (a : Action)
    (hW : wfAction a = true) (hP : invPos st) : invPos (applyAction st a) := by
  obtain ⟨hPs, hPscan, hPkeys⟩ := hP
  cases a with
  | prefetchSegmentsByTime t sf =>
    cases hres : SegmentPrefetch.prefetchSegmentsByTime st t sf with
    | error e => rw [applyAction_sbt_err hres]; exact ⟨hPs, hPscan, hPkeys⟩
    | ok st' =>
      rw [applyAction_sbt_ok hres]
      exact (sbt_ok_invPos hres ⟨hPs, hPscan, hPkeys⟩).1
  | prefetchInitSegment iref =>
    cases hres : SegmentPrefetch.prefetchInitSegment st iref with
    | error e => rw [applyAction_init_err hres]; exact ⟨hPs, hPscan, hPkeys⟩
    | ok st' =>
      rw [applyAction_init_ok hres]
      obtain ⟨a1, _, a3, a4, _, _, a7, _, _⟩ := prefetchInitSegment_ok hres
      exact ⟨by rw [a3]; exact hPs, by rw [a7, a4]; exact hPscan,
        by rw [a1, a4]; exact hPkeys⟩
  | getPrefetchedSegment ref cb =>
    cases hres : SegmentPrefetch.getPrefetchedSegment st ref cb with
    | error e => rw [applyAction_get_err hres]; exact ⟨hPs, hPscan, hPkeys⟩
    | ok res =>
      rw [applyAction_get_ok hres]
      obtain ⟨_, g2, g3, _, _, g6, _, g8, _⟩ := getPrefetched_ok hres
      exact ⟨by rw [g2]; exact hPs, by rw [g6, g3]; exact hPscan,
        by rw [g3]; intro k hk; exact hPkeys k (g8.subset hk)⟩
  | evict t =>
    rw [applyAction_evict]
    obtain ⟨_, e2, e3, _, _, e6, e7, _⟩ := evict_facts st t
    exact ⟨by rw [e3]; exact hPs, by rw [e6, e2]; exact hPscan,
      by rw [e2]; intro k hk; exact hPkeys k ((e7.map Prod.fst).subset hk)⟩
  | resetLimit n =>
    cases hres : SegmentPrefetch.resetLimit st n with
    | error e => rw [applyAction_reset_err hres]; exact ⟨hPs, hPscan, hPkeys⟩
    | ok st' =>
      rw [applyAction_reset_ok hres]
      obtain ⟨_, _, r3, r4, _, _, r7, r8, _⟩ := resetLimit_ok_facts hres
      exact ⟨by rw [r4]; exact hPs, by rw [r7, r3]; exact hPscan,
        by rw [r3]; intro k hk; exact hPkeys k ((r8.map Prod.fst).subset hk)⟩
  | deleteOnGet b =>
    rw [applyAction_dog]
    exact ⟨hPs, hPscan, hPkeys⟩
  | switchStream s =>
    cases hres : SegmentPrefetch.switchStream st s with
    | error e => rw [applyAction_switch_err hres]; exact ⟨hPs, hPscan, hPkeys⟩
    | ok st' =>
      rw [applyAction_switch_ok hres]
      obtain ⟨_, hcase⟩ := switchStream_ok_cases hres
      rcases hcase with rfl | ⟨s0, hs0, _, rfl⟩
      · exact ⟨hPs, hPscan, hPkeys⟩
      · obtain ⟨m1, _, m3, m4, _, _, _, _⟩ := clearAll_spec st
        refine ⟨?_, ?_, ?_⟩
        · show streamSorted s0 = true
          rw [hs0] at hW
          exact hW
        · show ∀ r ∈ (SegmentPrefetch.clearAll st).scannedLog,
            r.startTime ≤ (SegmentPrefetch.clearAll st).prefetchPosTime_
          rw [m4]
          simp
        · show ∀ k ∈ (SegmentPrefetch.clearAll st).segmentPrefetchMap_.map Prod.fst,
            k.startTime ≤ (SegmentPrefetch.clearAll st).prefetchPosTime_
          rw [m1]
          simp
  | clearAll =>
    rw [applyAction_clearAll]
    obtain ⟨m1, _, m3, m4, _, m6, _, _⟩ := clearAll_spec st
    refine ⟨by rw [m6]; exact hPs, by rw [m4]; simp, by rw [m1]; simp⟩
  | replaceFetchDispatcher d =>
    rw [applyAction_rfd]
    obtain ⟨f1, _, _, f4, f5, _, f7, _⟩ := replaceFetchDispatcher_facts st d
    exact ⟨by rw [f5]; exact hPs, by rw [f7, f4]; exact hPscan,
      by rw [f1, f4]; exact hPkeys⟩
  | chunkArrives ref data =>
    rw [applyAction_chunk]
    obtain ⟨f1, _, _, f4, f5, _, _, f8, _⟩ := chunkArrives_facts st ref data
    exact ⟨by rw [f5]; exact hPs, by rw [f8, f4]; exact hPscan,
      by rw [f1, f4]; exact hPkeys⟩

theorem pos_mono_step (st : SegmentPrefetch) (a : Action) (hP : invPos st) :
    st.prefetchPosTime_ ≤ (applyAction st a).prefetchPosTime_ ∨
    ((applyAction st a).prefetchPosTime_ = 0 ∧ isClearingAction a = true) := by
  cases a with
  | prefetchSegmentsByTime t sf =>
    cases hres : SegmentPrefetch.prefetchSegmentsByTime st t sf with
    | error e => rw [applyAction_sbt_err hres]; exact Or.inl (le_refl _)
    | ok st' =>
      rw [applyAction_sbt_ok hres]
      exact Or.inl (sbt_ok_invPos hres hP).2
  | prefetchInitSegment iref =>
    cases hres : SegmentPrefetch.prefetchInitSegment st iref with
    | error e => rw [applyAction_init_err hres]; exact Or.inl (le_refl _)
    | ok st' =>
      rw [applyAction_init_ok hres]
      exact Or.inl (le_of_eq (prefetchInitSegment_ok hres).2.2.2.1.symm)
  | getPrefetchedSegment ref cb =>
    cases hres : SegmentPrefetch.getPrefetchedSegment st ref cb with
    | error e => rw [applyAction_get_err hres]; exact Or.inl (le_refl _)
    | ok res =>
      rw [applyAction_get_ok hres]
      exact Or.inl (le_of_eq (getPrefetched_ok hres).2.2.1.symm)
  | evict t =>
    rw [applyAction_evict]
    exact Or.inl (le_of_eq (evict_facts st t).2.1.symm)
  | resetLimit n =>
    cases hres : SegmentPrefetch.resetLimit st n with
    | error e => rw [applyAction_reset_err hres]; exact Or.inl (le_refl _)
    | ok st' =>
      rw [applyAction_reset_ok hres]
      exact Or.inl (le_of_eq (resetLimit_ok_facts hres).2.2.1.symm)
  | deleteOnGet b =>
    rw [applyAction_dog]
    exact Or.inl (le_refl _)
  | switchStream s =>
    cases hres : SegmentPrefetch.switchStream st s with
    | error e => rw [applyAction_switch_err hres]; exact Or.inl (le_refl _)
    | ok st' =>
      rw [applyAction_switch_ok hres]
      obtain ⟨_, hcase⟩ := switchStream_ok_cases hres
      rcases hcase with rfl | ⟨s0, _, _, rfl⟩
      · exact Or.inl (le_refl _)
      · refine Or.inr ⟨?_, rfl⟩
        show (SegmentPrefetch.clearAll st).prefetchPosTime_ = 0
        exact (clearAll_spec st).2.2.1
  | clearAll =>
    rw [applyAction_clearAll]
    exact Or.inr ⟨(clearAll_spec st).2.2.1, rfl⟩
  | replaceFetchDispatcher d =>
    rw [applyAction_rfd]
    exact Or.inl (le_of_eq (replaceFetchDispatcher_facts st d).2.2.2.1.symm)
  | chunkArrives ref data =>
    rw [applyAction_chunk]
    exact Or.inl (le_of_eq (chunkArrives_facts st ref data).2.2.2.1.symm)

/-! ### Reachability -/

theorem inv_reach_A (acts : List Action) : ∀ st0 : SegmentPrefetch,
    invKeys st0 ∧ invSize st0 →
    invKeys (reach st0 acts) ∧ invSize (reach st0 acts) := by
  induction acts with
  | nil => intro st0 h0; exact h0
  | cons a rest ih =>
    intro st0 h0
    exact ih (applyAction st0 a) (invA_step st0 a h0)

theorem inv_reach_Pos (acts : List Action) : ∀ st0 : SegmentPrefetch,
    (∀ a ∈ acts, wfAction a = true) → invPos st0 →
    invPos (reach st0 acts) := by
  induction acts with
  | nil => intro st0 _ h0; exact h0
  | cons a rest ih =>
    intro st0 hW h0
    exact ih (applyAction st0 a)
      (fun b hb => hW b (List.mem_cons_of_mem a hb))
      (invPos_step st0 a (hW a (List.mem_cons_self a rest)) h0)

theorem init_invA (L : Int) (s0 : Stream) (d : Nat) (b : Bool) :
    invKeys (SegmentPrefetch.init L s0 d b) ∧ invSize (SegmentPrefetch.init L s0 d b) :=
  ⟨⟨List.nodup_nil, List.nodup_nil⟩, by unfold invSize SegmentPrefetch.init; simp⟩

theorem init_invPos (L : Int) (s0 : Stream) (d : Nat) (b : Bool)
    (hs : streamSorted s0 = true) :
    invPos (SegmentPrefetch.init L s0 d b) :=
  ⟨hs, by intro r hr; simp [SegmentPrefetch.init] at hr, by
    intro k hk; simp [SegmentPrefetch.init] at hk⟩

theorem mapGet_mapSet_self {α β : Type} [DecidableEq α] (m : List (α × β))
    (k : α) (v : β) : mapGet (mapSet m k v) k = some v := by
  induction m with
  | nil => simp [mapSet, mapGet]
  | cons p rest ih =>
    by_cases hp : p.1 = k
    · simp [mapSet, mapGet, hp]
    · simp [mapSet, mapGet, hp, ih]

theorem getPrefetched_miss (st : SegmentPrefetch) (ref : PrefetchKey)
    (cb : Option Nat) (hl : 0 < st.prefetchLimit_)
    (hmiss : SegmentPrefetch.lookupRef st ref = none) :
    SegmentPrefetch.getPrefetchedSegment st ref cb = Except.ok (st, none) := by
  unfold SegmentPrefetch.getPrefetchedSegment
  rw [if_pos hl]
  rcases ref with r | ir
  · dsimp only
    have hg : mapGet st.segmentPrefetchMap_ r = none := hmiss
    rw [hg]
  · dsimp only
    have hg : mapGet st.initSegmentPrefetchMap_ ir = none := hmiss
    rw [hg]

/-! ### Claim theorems -/

/-- C1 (counterexample): the claim that `replaceFetchDispatcher(d)` propagates
`d` to every operation in both tables is false on the code: at the concrete
state `exState`, whose init-segment table holds one operation created with
dispatcher `0`, the init-table operation still has dispatcher `0` after
`replaceFetchDispatcher 1`. -/
theorem claim_C1_counterexample :
    ¬ (∀ p ∈ (SegmentPrefetch.replaceFetchDispatcher exState 1).initSegmentPrefetchMap_,
        p.2.fetchDispatcher_ = 1) := by
  decide

/-- C1 (amended): `replaceFetchDispatcher(d)` updates the dispatcher used for
future dispatches and propagates `d` to every live `FetchOperation` in the
media-segment table; operations held in the init-segment table are left
untouched (they keep their previous dispatcher). -/
theorem claim_C1_amended (st : SegmentPrefetch) (d : Nat) :
    (SegmentPrefetch.replaceFetchDispatcher st d).fetchDispatcher_ = d ∧
    (∀ p ∈ (SegmentPrefetch.replaceFetchDispatcher st d).segmentPrefetchMap_,
      p.2.fetchDispatcher_ = d) ∧
    (SegmentPrefetch.replaceFetchDispatcher st d).initSegmentPrefetchMap_ =
      st.initSegmentPrefetchMap_ := by
  refine ⟨rfl, ?_, rfl⟩
  intro p hp
  unfold SegmentPrefetch.replaceFetchDispatcher at hp
  dsimp only at hp
  obtain ⟨q, _, rfl⟩ := List.mem_map.mp hp
  rfl

/-- C1 (witness): the amended statement applied at `exState` with dispatcher
`1` and the media-table entry for `exRef2`. -/
theorem claim_C1_witness :
    ((exRef2, SegmentPrefetchOperation.replaceFetchDispatcher exOpBuffered 1) ∈
      (SegmentPrefetch.replaceFetchDispatcher exState 1).segmentPrefetchMap_) ∧
    (SegmentPrefetchOperation.replaceFetchDispatcher exOpBuffered 1).fetchDispatcher_ = 1 :=
  ⟨by decide, (claim_C1_amended exState 1).2.1
    (exRef2, SegmentPrefetchOperation.replaceFetchDispatcher exOpBuffered 1) (by decide)⟩

/-- C2 (counterexample): the claim that `setStreamDataCallback(cb)` delivers
the accumulated bytes immediately and clears the accumulator is false on the
code: attaching a callback to the concrete operation `exOpBuffered`, whose
accumulator holds two buffered chunks `[1, 2]`, performs no delivery (the
method only stores the callback) and leaves the accumulator non-empty. -/
theorem claim_C2_counterexample :
    (SegmentPrefetchOperation.setStreamDataCallback exOpBuffered (some 7)).buffered
      = [1, 2] ∧
    ¬ (SegmentPrefetchOperation.setStreamDataCallback exOpBuffered (some 7)).buffered
      = [] := by
  decide

/-- C2 (amended): `setStreamDataCallback(cb)` only attaches/replaces the
consumer callback and leaves the accumulator untouched; the accumulated
bytes are delivered to the callback on the next chunk arrival, concatenated
with that chunk as one delivery, after which the accumulator is cleared;
a chunk arriving with a callback attached and an empty accumulator is
therefore passed through individually. -/
theorem claim_C2_amended (op : SegmentPrefetchOperation) (cb : Option Nat)
    (data : List Nat) :
    SegmentPrefetchOperation.setStreamDataCallback op cb =
      { op with streamDataCallback_ := cb } ∧
    (op.streamDataCallback_.isSome = true →
      (SegmentPrefetchOperation.receiveChunk op data).2 = some (op.buffered ++ data) ∧
      (SegmentPrefetchOperation.receiveChunk op data).1.buffered = []) ∧
    (op.streamDataCallback_ = none →
      (SegmentPrefetchOperation.receiveChunk op data).2 = none ∧
      (SegmentPrefetchOperation.receiveChunk op data).1.buffered =
        op.buffered ++ data) := by
  refine ⟨rfl, ?_, ?_⟩
  · intro hsome
    unfold SegmentPrefetchOperation.receiveChunk
    cases hcb : op.streamDataCallback_ with
    | none => rw [hcb] at hsome; simp at hsome
    | some c =>
      dsimp only
      constructor
      · by_cases hb : 0 < op.buffered.length
        · rw [if_pos hb]
        · rw [if_neg hb]
          have : op.buffered = [] := List.eq_nil_of_length_eq_zero (by omega)
          rw [this]
          simp
      · rfl
  · intro hnone
    unfold SegmentPrefetchOperation.receiveChunk
    rw [hnone]
    dsimp only
    constructor
    · rfl
    · by_cases hb : 0 < op.buffered.length
      · rw [if_pos hb]
      · rw [if_neg hb]
        have : op.buffered = [] := List.eq_nil_of_length_eq_zero (by omega)
        rw [this]
        simp

/-- C2 (witness): the amended statement applied to `exOpBuffered` with a
callback attached, receiving chunk `[3]`: the two buffered chunks and the
new one are delivered as one concatenated payload and the accumulator is
cleared. -/
theorem claim_C2_witness :
    (SegmentPrefetchOperation.setStreamDataCallback exOpBuffered (some 7)).streamDataCallback_.isSome
      = true ∧
    (SegmentPrefetchOperation.receiveChunk
        (SegmentPrefetchOperation.setStreamDataCallback exOpBuffered (some 7)) [3]).2 =
      some ((SegmentPrefetchOperation.setStreamDataCallback exOpBuffered (some 7)).buffered
        ++ [3]) ∧
    (SegmentPrefetchOperation.receiveChunk
        (SegmentPrefetchOperation.setStreamDataCallback exOpBuffered (some 7)) [3]).1.buffered
      = [] :=
  ⟨by decide,
    (claim_C2_amended (SegmentPrefetchOperation.setStreamDataCallback exOpBuffered (some 7))
      none [3]).2.1 (by decide)⟩

/-- C10 (confirmed): `getPrefetchedSegment` opens with the assertion
`prefetchLimit_ > 0` even though it performs no dispatch: on every cache
whose prefetch limit is `0`, a pure lookup trips the assertion (modelled as
`Except.error ()`), before any table is consulted. -/
theorem claim_C10 (st : SegmentPrefetch) (ref : PrefetchKey) (cb : Option Nat)
    (hz : st.prefetchLimit_ = 0) :
    SegmentPrefetch.getPrefetchedSegment st ref cb = Except.error () := by
  unfold SegmentPrefetch.getPrefetchedSegment
  rw [if_neg (by omega)]

/-- C10 (witness): the lookup assertion fires at the concrete zero-limit
cache `exStateZero`. -/
theorem claim_C10_witness :
    exStateZero.prefetchLimit_ = 0 ∧
    SegmentPrefetch.getPrefetchedSegment exStateZero (Sum.inl exRef1) none =
      Except.error () :=
  ⟨by decide, claim_C10 exStateZero (Sum.inl exRef1) none (by decide)⟩

/-- C3 (confirmed): across every operation sequence on a constructor-fresh
cache (with every stream index obeying the iterator ordering contract),
`prefetchPosTime_` is at least the `startTime` of every reference the
prefetch walk has scanned (recorded in the ghost `scannedLog`; a dispatched
reference is always scanned in the same loop iteration) and of every
reference currently in the media table; and one further operation can only
increase it, except for the full clear — `clearAll`, or `switchStream`
which performs it — which resets it to zero (together with the tables and
the scan history, as the claim's `clearAll` exception implies). -/
theorem claim_C3 (L : Int) (s0 : Stream) (d : Nat) (b : Bool) (acts : List Action)
    (hs : streamSorted s0 = true)
    (hW : ∀ a ∈ acts, wfAction a = true) :
    (∀ r ∈ (reach (SegmentPrefetch.init L s0 d b) acts).scannedLog,
      r.startTime ≤ (reach (SegmentPrefetch.init L s0 d b) acts).prefetchPosTime_) ∧
    (∀ k ∈ (reach (SegmentPrefetch.init L s0 d b) acts).segmentPrefetchMap_.map Prod.fst,
      k.startTime ≤ (reach (SegmentPrefetch.init L s0 d b) acts).prefetchPosTime_) ∧
    (∀ a : Action,
      (reach (SegmentPrefetch.init L s0 d b) acts).prefetchPosTime_ ≤
        (applyAction (reach (SegmentPrefetch.init L s0 d b) acts) a).prefetchPosTime_ ∨
      ((applyAction (reach (SegmentPrefetch.init L s0 d b) acts) a).prefetchPosTime_ = 0 ∧
        isClearingAction a = true)) := by
  have hPos := inv_reach_Pos acts (SegmentPrefetch.init L s0 d b) hW
    (init_invPos L s0 d b hs)
  exact ⟨hPos.2.1, hPos.2.2, fun a => pos_mono_step _ a hPos⟩

/-- C3 (witness): the monotonicity conjunct applied after one concrete
prefetch call, for a subsequent `evict(5)`. -/
theorem claim_C3_witness :
    streamSorted exStream = true ∧
    ((reach (SegmentPrefetch.init 2 exStream 5 true)
        [Action.prefetchSegmentsByTime 0 false]).prefetchPosTime_ ≤
      (applyAction (reach (SegmentPrefetch.init 2 exStream 5 true)
        [Action.prefetchSegmentsByTime 0 false]) (Action.evict 5)).prefetchPosTime_ ∨
      ((applyAction (reach (SegmentPrefetch.init 2 exStream 5 true)
        [Action.prefetchSegmentsByTime 0 false]) (Action.evict 5)).prefetchPosTime_ = 0 ∧
        isClearingAction (Action.evict 5) = true)) :=
  ⟨by decide,
    (claim_C3 2 exStream 5 true [Action.prefetchSegmentsByTime 0 false] (by decide)
      (by decide)).2.2 (Action.evict 5)⟩

/-- C4 (confirmed): from a constructor-fresh cache, after any sequence of
cache operations, every `prefetchSegmentsByTime` call that completes
normally leaves the media-segment table with at most `prefetchLimit_`
entries. -/
theorem claim_C4 (L : Int) (s0 : Stream) (d : Nat) (b : Bool) (acts : List Action)
    (currTime : Rat) (sf : Bool) (st' : SegmentPrefetch)
    (h : SegmentPrefetch.prefetchSegmentsByTime
      (reach (SegmentPrefetch.init L s0 d b) acts) currTime sf = Except.ok st') :
    (st'.segmentPrefetchMap_.length : Int) ≤ st'.prefetchLimit_ := by
  obtain ⟨⟨hK1, hK2⟩, hS⟩ := inv_reach_A acts (SegmentPrefetch.init L s0 d b)
    (init_invA L s0 d b)
  set st := reach (SegmentPrefetch.init L s0 d b) acts with hst
  obtain ⟨hl, hcase⟩ := prefetchSBT_ok_cases h
  have hmax : max st.prefetchLimit_ 0 = st.prefetchLimit_ := max_eq_left (le_of_lt hl)
  unfold invSize at hS
  rw [hmax] at hS
  rcases hcase with rfl | ⟨refs, st2, hidx, hne, hloop, rfl⟩
  · exact hS
  · obtain ⟨d1, _, _, _, _, _, _, _, d9⟩ := prefetchLoop_facts _ _ _ hloop
    obtain ⟨c1, c2, _⟩ := clearInitSegments_facts st2
    rw [c1, c2, d1]
    exact d9 hS

/-- C4 (witness): the bound holds after the concrete call producing
`exRun1`. -/
theorem claim_C4_witness :
    SegmentPrefetch.prefetchSegmentsByTime
      (reach (SegmentPrefetch.init 2 exStream 5 true) []) 0 false =
      Except.ok exRun1 ∧
    ((exRun1.segmentPrefetchMap_.length : Int) ≤ exRun1.prefetchLimit_) :=
  ⟨by decide, claim_C4 2 exStream 5 true [] 0 false exRun1 (by decide)⟩

/-- C7 (confirmed): on every state reachable from a constructor-fresh cache,
both tables have pairwise-distinct reference identities (at most one
`FetchOperation` per identity); a `prefetchSegmentsByTime` call never
replaces the operation of a media reference already present (the existing
entry still answers lookups afterwards); and `prefetchInitSegment` on an
init reference already present leaves its entry in place. -/
theorem claim_C7 (L : Int) (s0 : Stream) (d : Nat) (b : Bool) (acts : List Action) :
    ((reach (SegmentPrefetch.init L s0 d b) acts).segmentPrefetchMap_.map Prod.fst).Nodup ∧
    ((reach (SegmentPrefetch.init L s0 d b) acts).initSegmentPrefetchMap_.map Prod.fst).Nodup ∧
    (∀ (t : Rat) (sf : Bool) (st' : SegmentPrefetch),
      SegmentPrefetch.prefetchSegmentsByTime
        (reach (SegmentPrefetch.init L s0 d b) acts) t sf = Except.ok st' →
      ∀ r op, mapGet (reach (SegmentPrefetch.init L s0 d b) acts).segmentPrefetchMap_ r
          = some op →
        mapGet st'.segmentPrefetchMap_ r = some op) ∧
    (∀ (iref : InitSegmentReference) (st' : SegmentPrefetch),
      SegmentPrefetch.prefetchInitSegment
        (reach (SegmentPrefetch.init L s0 d b) acts) iref = Except.ok st' →
      ∀ op, mapGet (reach (SegmentPrefetch.init L s0 d b) acts).initSegmentPrefetchMap_ iref
          = some op →
        mapGet st'.initSegmentPrefetchMap_ iref = some op) := by
  obtain ⟨⟨hK1, hK2⟩, _⟩ := inv_reach_A acts (SegmentPrefetch.init L s0 d b)
    (init_invA L s0 d b)
  set st := reach (SegmentPrefetch.init L s0 d b) acts with hst
  refine ⟨hK1, hK2, ?_, ?_⟩
  · intro t sf st' h r op hget
    obtain ⟨_, hcase⟩ := prefetchSBT_ok_cases h
    rcases hcase with rfl | ⟨refs, st2, _, _, hloop, rfl⟩
    · exact hget
    · obtain ⟨_, _, _, _, _, d6, _⟩ := prefetchLoop_facts _ _ _ hloop
      rw [(clearInitSegments_facts st2).1]
      exact d6 r op hget
  · intro iref st' h op hget
    obtain ⟨_, _, _, _, _, _, _, _, a9⟩ := prefetchInitSegment_ok h
    rcases a9 with h1 | ⟨hnone, op2, h1⟩
    · rw [h1]; exact hget
    · rw [hget] at hnone
      cases hnone

/-- C7 (witness): the media entry dispatched for `exRef1` in `exRun1` is
still mapped to the same operation after a repeat `prefetchSegmentsByTime`
call. -/
theorem claim_C7_witness :
    mapGet exRun1.segmentPrefetchMap_ exRef1 = some exOp0 ∧
    SegmentPrefetch.prefetchSegmentsByTime exRun1 0 false = Except.ok exRun1 ∧
    mapGet exRun1.segmentPrefetchMap_ exRef1 = some exOp0 :=
  ⟨by decide, by decide,
    (claim_C7 2 exStream 5 true [Action.prefetchSegmentsByTime 0 false]).2.2.1 0 false
      exRun1 (by decide) exRef1 exOp0 (by decide)⟩

theorem resetLimit_ok_log {st : SegmentPrefetch} {n : Int} {st' : SegmentPrefetch}
    (h : SegmentPrefetch.resetLimit st n = Except.ok st')
    (hnd : (st.segmentPrefetchMap_.map Prod.fst).Nodup) :
    ∃ ext, st'.abortLog = st.abortLog ++
        ((st.segmentPrefetchMap_.drop n.toNat).map (fun p => Sum.inl p.1)).reverse ++ ext ∧
      ∀ x ∈ ext, ∃ i, x = Sum.inr i := by
  unfold SegmentPrefetch.resetLimit at h
  by_cases hn : 0 ≤ n
  · rw [if_pos hn] at h
    dsimp only at h
    injection h with h
    subst h
    have hspec := resetPopRev_spec n st.segmentPrefetchMap_
      { st with prefetchLimit_ := n } rfl hnd
    rw [hspec]
    set A : SegmentPrefetch := { st with
      prefetchLimit_ := n
      segmentPrefetchMap_ := st.segmentPrefetchMap_.take n.toNat
      abortLog := st.abortLog ++
        ((st.segmentPrefetchMap_.drop n.toNat).map (fun p => Sum.inl p.1)).reverse }
      with hA
    obtain ⟨ext2, hlog2, hext2⟩ := (clearInitSegments_facts A).2.2.2.2.2.2.2.2
    refine ⟨ext2, ?_, hext2⟩
    rw [hlog2]
  · rw [if_neg hn] at h
    cases h

theorem clearInitSegments_covered (st : SegmentPrefetch) :
    initsCovered (SegmentPrefetch.clearInitSegments_ st) := by
  intro p hp
  have hcov := clearInitLoop_covered (st.segmentPrefetchMap_.map Prod.fst)
    (st.initSegmentPrefetchMap_.map Prod.fst) st
    (fun q hq => Or.inl (List.mem_map_of_mem _ hq)) p hp
  obtain ⟨k, hk, hkeq⟩ := List.any_eq_true.mp hcov
  obtain ⟨q, hq, rfl⟩ := List.mem_map.mp hk
  refine ⟨q, ?_, of_decide_eq_true hkeq⟩
  rw [(clearInitSegments_facts st).1]
  exact hq

/-- C5 (confirmed): for every prior state whose media table obeys `Map` key
uniqueness and every `newLimit >= 0`, `resetLimit` succeeds, stores the new
limit, leaves the media table holding exactly its first `min(n, size)`
entries in insertion order (so the removed entries are exactly the excess,
most recently inserted ones), aborts those excess entries one at a time in
last-inserted-first order (the reversed dropped suffix, in the ghost abort
log), and then prunes orphaned init segments (appending only init-segment
aborts). -/
theorem claim_C5 (st : SegmentPrefetch) (n : Int)
    (hn : 0 ≤ n) (hnd : (st.segmentPrefetchMap_.map Prod.fst).Nodup) :
    ∃ st', SegmentPrefetch.resetLimit st n = Except.ok st' ∧
      st'.prefetchLimit_ = n ∧
      st'.segmentPrefetchMap_ = st.segmentPrefetchMap_.take n.toNat ∧
      st'.segmentPrefetchMap_.length = min n.toNat st.segmentPrefetchMap_.length ∧
      ∃ ext, st'.abortLog = st.abortLog ++
          ((st.segmentPrefetchMap_.drop n.toNat).map (fun p => Sum.inl p.1)).reverse ++ ext ∧
        ∀ x ∈ ext, ∃ i, x = Sum.inr i := by
  cases hres : SegmentPrefetch.resetLimit st n with
  | error e =>
    exfalso
    unfold SegmentPrefetch.resetLimit at hres
    rw [if_pos hn] at hres
    exact Except.noConfusion hres
  | ok st' =>
    obtain ⟨_, r2, _⟩ := resetLimit_ok_facts hres
    have hmedia := resetLimit_ok_media hres hnd
    obtain ⟨ext, hlog, hext⟩ := resetLimit_ok_log hres hnd
    exact ⟨st', rfl, r2, hmedia, by rw [hmedia, List.length_take], ext, hlog, hext⟩

/-- C5 (witness): `resetLimit(0)` on the concrete one-entry state
`exState`. -/
theorem claim_C5_witness :
    (0 : Int) ≤ 0 ∧ ((exState.segmentPrefetchMap_.map Prod.fst).Nodup) ∧
    ∃ st', SegmentPrefetch.resetLimit exState 0 = Except.ok st' ∧
      st'.prefetchLimit_ = 0 ∧
      st'.segmentPrefetchMap_ = exState.segmentPrefetchMap_.take (0 : Int).toNat ∧
      st'.segmentPrefetchMap_.length =
        min (0 : Int).toNat exState.segmentPrefetchMap_.length ∧
      ∃ ext, st'.abortLog = exState.abortLog ++
          ((exState.segmentPrefetchMap_.drop (0 : Int).toNat).map
            (fun p => Sum.inl p.1)).reverse ++ ext ∧
        ∀ x ∈ ext, ∃ i, x = Sum.inr i :=
  ⟨le_refl 0, by decide, claim_C5 exState 0 (by decide) (by decide)⟩

/-- C6 (confirmed): for every state whose media table obeys `Map` key
uniqueness and every time `t`, `evict(t)` leaves the media table holding
exactly the entries whose reference has `endTime >= t` (unchanged, in
place), aborting exactly those with `endTime < t` (recorded in order in the
ghost abort log, written with the source's `t > endTime` comparison), after
which only orphaned init segments are additionally pruned. -/
theorem claim_C6 (st : SegmentPrefetch) (t : Rat)
    (hnd : (st.segmentPrefetchMap_.map Prod.fst).Nodup) :
    (SegmentPrefetch.evict st t).segmentPrefetchMap_ =
      st.segmentPrefetchMap_.filter (fun p => !decide (t > p.1.endTime)) ∧
    ∃ ext, (SegmentPrefetch.evict st t).abortLog = st.abortLog ++
        (st.segmentPrefetchMap_.filter (fun p => decide (t > p.1.endTime))).map
          (fun p => Sum.inl p.1) ++ ext ∧
      ∀ x ∈ ext, ∃ i, x = Sum.inr i := by
  have hspec := evictLoop_spec t st.segmentPrefetchMap_ [] st (by simp)
    (by simpa using hnd)
  have hevict : SegmentPrefetch.evict st t = SegmentPrefetch.clearInitSegments_
      (SegmentPrefetch.evictLoop t st (st.segmentPrefetchMap_.map Prod.fst)) := rfl
  obtain ⟨c1, _, _, _, _, _, _, _, c9⟩ := clearInitSegments_facts
    (SegmentPrefetch.evictLoop t st (st.segmentPrefetchMap_.map Prod.fst))
  constructor
  · rw [hevict, c1, hspec]
    simp
  · obtain ⟨ext, hlog, hext⟩ := c9
    refine ⟨ext, ?_, hext⟩
    rw [hevict, hlog, hspec]

/-- C6 (witness): `evict(5)` on `exState`, whose only media entry ends at
time 4 and is therefore removed. -/
theorem claim_C6_witness :
    ((exState.segmentPrefetchMap_.map Prod.fst).Nodup) ∧
    (SegmentPrefetch.evict exState 5).segmentPrefetchMap_ =
      exState.segmentPrefetchMap_.filter (fun p => !decide ((5 : Rat) > p.1.endTime)) :=
  ⟨by decide, (claim_C6 exState 5 (by decide)).1⟩

/-- C9 (confirmed): after the orphan-pruning pass runs via any of its paths
— `evict`, a successful `resetLimit`, or a `prefetchSegmentsByTime` call
that reaches its walk (segment index present and at least one reference
remaining after the optional skip) — every entry remaining in the
init-segment table is the `initSegmentReference` of some reference present
in the media-segment table; entries not so referenced were aborted and
removed. -/
theorem claim_C9 :
    (∀ (st : SegmentPrefetch) (t : Rat), initsCovered (SegmentPrefetch.evict st t)) ∧
    (∀ (st : SegmentPrefetch) (n : Int) (st' : SegmentPrefetch),
      SegmentPrefetch.resetLimit st n = Except.ok st' → initsCovered st') ∧
    (∀ (st : SegmentPrefetch) (t : Rat) (sf : Bool) (refs : List SegmentReference)
      (st' : SegmentPrefetch),
      st.stream_.segmentIndex = some refs →
      sbtRemaining st t sf refs ≠ [] →
      SegmentPrefetch.prefetchSegmentsByTime st t sf = Except.ok st' →
      initsCovered st') := by
  refine ⟨?_, ?_, ?_⟩
  · intro st t
    exact clearInitSegments_covered
      (SegmentPrefetch.evictLoop t st (st.segmentPrefetchMap_.map Prod.fst))
  · intro st n st' h
    unfold SegmentPrefetch.resetLimit at h
    by_cases hn : 0 ≤ n
    · rw [if_pos hn] at h
      dsimp only at h
      injection h with h
      subst h
      exact clearInitSegments_covered _
    · rw [if_neg hn] at h
      cases h
  · intro st t sf refs st' hidx hne h
    unfold SegmentPrefetch.prefetchSegmentsByTime at h
    by_cases hl : 0 < st.prefetchLimit_
    · rw [if_pos hl, hidx] at h
      dsimp only at h
      cases hrem : (if sf then
          (getIteratorForTime (max t st.prefetchPosTime_) refs).drop 1
        else getIteratorForTime (max t st.prefetchPosTime_) refs) with
      | nil =>
        exfalso
        apply hne
        show (if sf then
            (getIteratorForTime (max t st.prefetchPosTime_) refs).drop 1
          else getIteratorForTime (max t st.prefetchPosTime_) refs) = []
        exact hrem
      | cons r0 rest0 =>
        rw [hrem] at h
        dsimp only at h
        cases hloop : SegmentPrefetch.prefetchLoop st (r0 :: rest0) with
        | error e =>
          rw [hloop] at h
          dsimp only at h
          cases h
        | ok st2 =>
          rw [hloop] at h
          dsimp only at h
          injection h with h
          subst h
          exact clearInitSegments_covered st2
    · rw [if_neg hl] at h
      cases h

/-- C9 (witness): the resetLimit path at the concrete state `exState`. -/
theorem claim_C9_witness :
    SegmentPrefetch.resetLimit exState 0 = Except.ok exAfterReset ∧
    initsCovered exAfterReset :=
  ⟨by decide, claim_C9.2.1 exState 0 exAfterReset (by decide)⟩

/-- C8 (confirmed): with the limit assertion passing, `getPrefetchedSegment`
returns none (and changes nothing) when the reference is absent from the
table matching its kind; when present it returns the stored operation's
pending-request handle, attaches the supplied consumer callback (observable
in the retained entry when `deleteOnGet_` is off), and, when `deleteOnGet_`
is on, removes the entry so that an immediate second lookup of the same
reference returns none. -/
theorem claim_C8 (st : SegmentPrefetch) (ref : PrefetchKey) (cb : Option Nat)
    (hl : 0 < st.prefetchLimit_) :
    (SegmentPrefetch.lookupRef st ref = none →
      SegmentPrefetch.getPrefetchedSegment st ref cb = Except.ok (st, none)) ∧
    (∀ op, SegmentPrefetch.lookupRef st ref = some op →
      ∃ st1, SegmentPrefetch.getPrefetchedSegment st ref cb =
          Except.ok (st1, SegmentPrefetchOperation.getOperation op) ∧
        (st.deleteOnGet_ = true →
          SegmentPrefetch.lookupRef st1 ref = none ∧
          ∀ cb2, SegmentPrefetch.getPrefetchedSegment st1 ref cb2 =
            Except.ok (st1, none)) ∧
        (st.deleteOnGet_ = false → ∀ c, cb = some c →
          SegmentPrefetch.lookupRef st1 ref =
            some (SegmentPrefetchOperation.setStreamDataCallback op cb))) := by
  constructor
  · intro hmiss
    exact getPrefetched_miss st ref cb hl hmiss
  · intro op hop
    rcases ref with r | ir
    · have hg : mapGet st.segmentPrefetchMap_ r = some op := hop
      by_cases hc : cb.isSome = true
      · by_cases hdog : st.deleteOnGet_ = true
        · refine ⟨{ st with segmentPrefetchMap_ := mapDelete (mapSet st.segmentPrefetchMap_ r (SegmentPrefetchOperation.setStreamDataCallback op cb)) r }, ?_, ?_, ?_⟩
          · unfold SegmentPrefetch.getPrefetchedSegment
            rw [if_pos hl]
            dsimp only
            rw [hg]
            dsimp only
            simp only [if_pos hc, if_pos hdog]
            rfl
          · intro _
            refine ⟨mapGet_mapDelete_self _ _, ?_⟩
            intro cb2
            exact getPrefetched_miss _ (Sum.inl r) cb2 hl (mapGet_mapDelete_self _ _)
          · intro hdg
            exfalso
            rw [hdg] at hdog
            exact Bool.false_ne_true hdog
        · refine ⟨{ st with segmentPrefetchMap_ := mapSet st.segmentPrefetchMap_ r (SegmentPrefetchOperation.setStreamDataCallback op cb) }, ?_, ?_, ?_⟩
          · unfold SegmentPrefetch.getPrefetchedSegment
            rw [if_pos hl]
            dsimp only
            rw [hg]
            dsimp only
            simp only [if_pos hc, if_neg hdog]
            rfl
          · intro hdg
            exact absurd hdg hdog
          · intro _ c _
            exact mapGet_mapSet_self _ r _
      · have hcb : cb = none := by
          cases cb
          · rfl
          · simp at hc
        by_cases hdog : st.deleteOnGet_ = true
        · refine ⟨{ st with segmentPrefetchMap_ := mapDelete st.segmentPrefetchMap_ r }, ?_, ?_, ?_⟩
          · unfold SegmentPrefetch.getPrefetchedSegment
            rw [if_pos hl]
            dsimp only
            rw [hg]
            dsimp only
            simp only [if_neg hc, if_pos hdog]
          · intro _
            refine ⟨mapGet_mapDelete_self _ _, ?_⟩
            intro cb2
            exact getPrefetched_miss _ (Sum.inl r) cb2 hl (mapGet_mapDelete_self _ _)
          · intro _ c hcbc
            rw [hcb] at hcbc
            cases hcbc
        · refine ⟨st, ?_, ?_, ?_⟩
          · unfold SegmentPrefetch.getPrefetchedSegment
            rw [if_pos hl]
            dsimp only
            rw [hg]
            dsimp only
            simp only [if_neg hc, if_neg hdog]
          · intro hdg
            exact absurd hdg hdog
          · intro _ c hcbc
            rw [hcb] at hcbc
            cases hcbc
    · have hg : mapGet st.initSegmentPrefetchMap_ ir = some op := hop
      by_cases hc : cb.isSome = true
      · by_cases hdog : st.deleteOnGet_ = true
        · refine ⟨{ st with initSegmentPrefetchMap_ := mapDelete (mapSet st.initSegmentPrefetchMap_ ir (SegmentPrefetchOperation.setStreamDataCallback op cb)) ir }, ?_, ?_, ?_⟩
          · unfold SegmentPrefetch.getPrefetchedSegment
            rw [if_pos hl]
            dsimp only
            rw [hg]
            dsimp only
            simp only [if_pos hc, if_pos hdog]
            rfl
          · intro _
            refine ⟨mapGet_mapDelete_self _ _, ?_⟩
            intro cb2
            exact getPrefetched_miss _ (Sum.inr ir) cb2 hl (mapGet_mapDelete_self _ _)
          · intro hdg
            exfalso
            rw [hdg] at hdog
            exact Bool.false_ne_true hdog
        · refine ⟨{ st with initSegmentPrefetchMap_ := mapSet st.initSegmentPrefetchMap_ ir (SegmentPrefetchOperation.setStreamDataCallback op cb) }, ?_, ?_, ?_⟩
          · unfold SegmentPrefetch.getPrefetchedSegment
            rw [if_pos hl]
            dsimp only
            rw [hg]
            dsimp only
            simp only [if_pos hc, if_neg hdog]
            rfl
          · intro hdg
            exact absurd hdg hdog
          · intro _ c _
            exact mapGet_mapSet_self _ ir _
      · have hcb : cb = none := by
          cases cb
          · rfl
          · simp at hc
        by_cases hdog : st.deleteOnGet_ = true
        · refine ⟨{ st with initSegmentPrefetchMap_ := mapDelete st.initSegmentPrefetchMap_ ir }, ?_, ?_, ?_⟩
          · unfold SegmentPrefetch.getPrefetchedSegment
            rw [if_pos hl]
            dsimp only
            rw [hg]
            dsimp only
            simp only [if_neg hc, if_pos hdog]
          · intro _
            refine ⟨mapGet_mapDelete_self _ _, ?_⟩
            intro cb2
            exact getPrefetched_miss _ (Sum.inr ir) cb2 hl (mapGet_mapDelete_self _ _)
          · intro _ c hcbc
            rw [hcb] at hcbc
            cases hcbc
        · refine ⟨st, ?_, ?_, ?_⟩
          · unfold SegmentPrefetch.getPrefetchedSegment
            rw [if_pos hl]
            dsimp only
            rw [hg]
            dsimp only
            simp only [if_neg hc, if_neg hdog]
          · intro hdg
            exact absurd hdg hdog
          · intro _ c hcbc
            rw [hcb] at hcbc
            cases hcbc

/-- C8 (witness): the hit case at `exState` (which has `deleteOnGet_` on and
one media entry), with a consumer callback supplied. -/
theorem claim_C8_witness :
    SegmentPrefetch.lookupRef exState (Sum.inl exRef2) = some exOpBuffered ∧
    ∃ st1, SegmentPrefetch.getPrefetchedSegment exState (Sum.inl exRef2) (some 9) =
        Except.ok (st1, SegmentPrefetchOperation.getOperation exOpBuffered) ∧
      (exState.deleteOnGet_ = true →
        SegmentPrefetch.lookupRef st1 (Sum.inl exRef2) = none ∧
        ∀ cb2, SegmentPrefetch.getPrefetchedSegment st1 (Sum.inl exRef2) cb2 =
          Except.ok (st1, none)) ∧
      (exState.deleteOnGet_ = false → ∀ c, (some 9 : Option Nat) = some c →
        SegmentPrefetch.lookupRef st1 (Sum.inl exRef2) =
          some (SegmentPrefetchOperation.setStreamDataCallback exOpBuffered (some 9))) :=
  ⟨by decide,
    (claim_C8 exState (Sum.inl exRef2) (some 9) (by decide)).2 exOpBuffered (by decide)⟩

end Shaka
